import Mathlib

/-!
# dynamicLogFile: the ring buffer of lines and the ingestion loop

A shallow embedding of `src/dynamicLogFile.c`.

* C `int` values (`nEntries`, `currLine`, loop indices) are integers; the C
  operator `%` is truncated remainder (`Int.tmod`) and faults on a zero divisor.
* A pointer that may be `NULL` is an `Option`.
* The slot array `list` is a `List (Option line)`; reading or writing outside
  of it is a fault, not a value.
* `do ... while` and `while` loops take a fuel argument: one unit per pass of
  the loop body.
* What the environment decides (the allocator, the bytes waiting on the fifo,
  the result of `select`) is an explicit argument.
-/

namespace DynamicLogFile

/-! ## Data model -/

/-- One C `char` of text, by its byte value. -/
abbrev Byte := Fin 256

/-- The `struct line`: `szLine` is the text buffer (`none` for `NULL`), given by the
bytes that were put into it, which a NUL follows; `sLength` is the recorded
length. -/
structure line where
  szLine : Option (List Byte)
  sLength : Nat
deriving DecidableEq, Repr

/-- The `struct lineBuffer`: capacity, cursor and the array of line pointers. -/
structure lineBuffer where
  nEntries : Int
  currLine : Int
  list : List (Option line)
deriving DecidableEq, Repr

/-- Ways in which a run leaves defined behaviour, plus running out of fuel. -/
inductive Fault where
  | outOfBounds
  | divByZero
  | outOfFuel
deriving DecidableEq, Repr

/-- The first argument of a `perror` call. -/
inductive Tag where
  | calloc
  | getline
  | select
  | mkfifo
  | stat
  | openCall
  | fdopen
deriving DecidableEq, Repr

/-- One write to a stream: the text of an `fprintf`, or a `perror` message. -/
inductive Output where
  | fprintf (text : List Byte)
  | perror (tag : Tag)
deriving DecidableEq, Repr

/-! ## C primitives -/

/-- The answers of the allocator to the coming requests, `true` for "memory is
there"; past the end of the list memory is there. -/
abbrev Heap := List Bool

/-- Largest value of `size_t` (LP64). -/
def SIZE_MAX : Nat := 2 ^ 64 - 1

/-- Conversion of an `int` argument to `size_t`. -/
def size_t_of_int (n : Int) : Nat := (n % 2 ^ 64).toNat

/-- Value of `sizeof (struct lineBuffer)` on LP64. -/
def sizeof_lineBuffer : Nat := 16

/-- Value of `sizeof (struct line)` on LP64. -/
def sizeof_line : Nat := 16

/-- The call `calloc (nmemb, size)`: whether zeroed memory was obtained, and the
allocator afterwards. A request whose byte count overflows `size_t` gets
`NULL`; what a request for zero bytes gets is up to the allocator. -/
def calloc (heap : Heap) (nmemb size : Nat) : Bool × Heap :=
  match heap with
  | [] => (decide (nmemb * size ≤ SIZE_MAX), [])
  | avail :: rest => (decide (nmemb * size ≤ SIZE_MAX) && avail, rest)

/-- The C expression `a % b` on `int`. -/
def c_mod (a b : Int) : Except Fault Int :=
  if b = 0 then .error .divByZero else .ok (Int.tmod a b)

/-- The C expression `list[i]` as a value. -/
def readSlot (list : List (Option line)) (i : Int) : Except Fault (Option line) :=
  if 0 ≤ i ∧ i < list.length then .ok (list.getD i.toNat none) else .error .outOfBounds

/-- The C assignment `list[i] = v`. -/
def writeSlot (list : List (Option line)) (i : Int) (v : Option line) :
    Except Fault (List (Option line)) :=
  if 0 ≤ i ∧ i < list.length then .ok (list.set i.toNat v) else .error .outOfBounds

/-- What `fprintf (file, "%s", sz)` writes: the bytes of `sz` before the first NUL. -/
def cstr (sz : List Byte) : List Byte := sz.takeWhile (fun b => b ≠ 0)

/-! ## The ring buffer -/

/-- The call `freeLine (ppL)` for a non-null `ppL`, as a function of `*ppL`: the value of
`*ppL` afterwards and the lines that were freed. -/
def freeLine (ppL : Option line) : Option line × List line :=
  match ppL with
  | some l => (none, [l])
  | none => (none, [])

/-- Result of `create_lineBuffer`: the returned pointer, what went to `stderr`
and the allocator afterwards. -/
structure Created where
  pBuf : Option lineBuffer
  err : List Output
  heap : Heap
deriving DecidableEq, Repr

/-- The call `create_lineBuffer (nEntries)`. The array is zeroed by `calloc`, so every
slot starts as `NULL`; the request is for `nEntries` elements of
`sizeof (struct line)` bytes, room for at least `nEntries` pointers. -/
def create_lineBuffer (heap : Heap) (nEntries : Int) : Created :=
  match calloc heap 1 sizeof_lineBuffer with
  | (false, heap1) => ⟨none, [Output.perror Tag.calloc], heap1⟩
  | (true, heap1) =>
    match calloc heap1 (size_t_of_int nEntries) sizeof_line with
    | (false, heap2) => ⟨none, [Output.perror Tag.calloc], heap2⟩
    | (true, heap2) =>
      ⟨some ⟨nEntries, 0, List.replicate nEntries.toNat none⟩, [], heap2⟩

/-- Result of `storeLine`: the buffer, the caller's `*ppLn` and the lines that
were freed, all after the call. -/
structure Stored where
  pBuf : lineBuffer
  ppLn : Option line
  released : List line
deriving DecidableEq, Repr

/-- The call `storeLine (pBuf, ppLn)` for a non-null `ppLn`, as a function of `*ppLn`. -/
def storeLine (pBuf : lineBuffer) (ppLn : Option line) : Except Fault Stored :=
  match ppLn with
  | none => .ok ⟨pBuf, none, []⟩
  | some pLn =>
    match readSlot pBuf.list pBuf.currLine with
    | .error f => .error f
    | .ok cur =>
      let freed := if cur ≠ none then freeLine cur else (cur, [])
      match writeSlot pBuf.list pBuf.currLine freed.1 with
      | .error f => .error f
      | .ok list1 =>
        match writeSlot list1 pBuf.currLine (some pLn) with
        | .error f => .error f
        | .ok list2 =>
          match c_mod (pBuf.currLine + 1) pBuf.nEntries with
          | .error f => .error f
          | .ok next => .ok ⟨⟨pBuf.nEntries, next, list2⟩, none, freed.2⟩

/-- One pass of the body of the `do ... while` of `printLines` at index `i`:
the strings written to `file` and the next value of `i`. -/
def printLines_body (pBuf : lineBuffer) (i : Int) : Except Fault (List (List Byte) × Int) :=
  match readSlot pBuf.list i with
  | .error f => .error f
  | .ok slot =>
    let out : List (List Byte) :=
      match slot with
      | none => []
      | some l =>
        match l.szLine with
        | none => []
        | some sz => [cstr sz]
    match c_mod (i + 1) pBuf.nEntries with
    | .error f => .error f
    | .ok next => .ok (out, next)

/-- The `do ... while (i != pBuf->currLine)` loop of `printLines` from index `i`. -/
def printLines_loop (pBuf : lineBuffer) : Nat → Int → Except Fault (List (List Byte))
  | 0, _ => .error .outOfFuel
  | fuel + 1, i =>
    match printLines_body pBuf i with
    | .error f => .error f
    | .ok (out, next) =>
      if next ≠ pBuf.currLine then
        match printLines_loop pBuf fuel next with
        | .error f => .error f
        | .ok rest => .ok (out ++ rest)
      else .ok out

/-- Result of `printLines`: the buffer after the call and the strings written to
`file`, one per `fprintf` call, in the order of the calls. -/
structure Printed where
  pBuf : lineBuffer
  file : List (List Byte)
deriving DecidableEq, Repr

/-- The call `printLines (pBuf, file)`: `i` starts at the cursor; nothing is assigned
through `pBuf`. -/
def printLines (fuel : Nat) (pBuf : lineBuffer) : Except Fault Printed :=
  match printLines_loop pBuf fuel pBuf.currLine with
  | .error f => .error f
  | .ok out => .ok ⟨pBuf, out⟩

/-- The loop of `printLines` once more, keeping for every pass of its body the
index `i` it ran at next to what it wrote. -/
def printLines_trace (pBuf : lineBuffer) :
    Nat → Int → Except Fault (List (Int × List (List Byte)))
  | 0, _ => .error .outOfFuel
  | fuel + 1, i =>
    match printLines_body pBuf i with
    | .error f => .error f
    | .ok (out, next) =>
      if next ≠ pBuf.currLine then
        match printLines_trace pBuf fuel next with
        | .error f => .error f
        | .ok rest => .ok ((i, out) :: rest)
      else .ok [(i, out)]

/-! ## Reading the fifo -/

/-- Value of `errno` for "the read would block" (Linux). -/
def EAGAIN : Int := 11

/-- Value of `EWOULDBLOCK` (Linux: the same as `EAGAIN`). -/
def EWOULDBLOCK : Int := 11

/-- What one call of `getline` does: it hands over a line of bytes and returns
their count, or it returns -1 with `errno` set. -/
inductive GetlineResult where
  | line (bytes : List Byte)
  | fail (errno : Int)
deriving DecidableEq, Repr

/-- The fifo as a `FILE`: what the coming `getline` calls will find, and the
error indicator of the stream. Past the end of `pending` a read would block. -/
structure Stream where
  pending : List GetlineResult
  error : Bool
deriving DecidableEq, Repr

/-- The call `getline (&szLine, &cap, file)`: the outcome and the stream afterwards. -/
def getline (file : Stream) : GetlineResult × Stream :=
  match file.pending with
  | [] => (GetlineResult.fail EAGAIN, ⟨[], true⟩)
  | GetlineResult.line bytes :: rest => (GetlineResult.line bytes, ⟨rest, file.error⟩)
  | GetlineResult.fail errno :: rest => (GetlineResult.fail errno, ⟨rest, true⟩)

/-- Result of `readLine`: the returned pointer, the stream and the allocator
afterwards, and what went to `stderr`. -/
structure ReadLine where
  ln : Option line
  file : Stream
  heap : Heap
  err : List Output
deriving DecidableEq, Repr

/-- The call `readLine (file)`: `getline`, then the `struct line` for what it
read. -/
def readLine (file : Stream) (heap : Heap) : ReadLine :=
  match getline file with
  | (GetlineResult.fail errno, file1) =>
    if errno = EAGAIN ∨ errno = EWOULDBLOCK then
      ⟨none, ⟨file1.pending, false⟩, heap, []⟩
    else
      ⟨none, file1, heap, [Output.perror Tag.getline]⟩
  | (GetlineResult.line bytes, file1) =>
    if bytes.length = 0 then
      ⟨none, file1, heap, []⟩
    else
      match calloc heap 1 sizeof_line with
      | (false, heap1) => ⟨none, file1, heap1, [Output.perror Tag.calloc]⟩
      | (true, heap1) => ⟨some ⟨some bytes, bytes.length⟩, file1, heap1, []⟩

/-! ## The loop of `main` -/

/-- What `main` holds while it loops: the ring buffer, the fifo, the allocator
and everything written to `stderr` so far. -/
structure Loop where
  pLnBuf : lineBuffer
  fFifo : Stream
  heap : Heap
  stderr : List Output
deriving DecidableEq, Repr

/-- What the environment hands to one pass of `for (;;)`: the value `select`
returns, the two bits of `readfds` after it, and the value `getchar` returns
if it is called. -/
structure Wakeup where
  selectRet : Int
  stdinSet : Bool
  fifoSet : Bool
  getcharRet : Int
deriving DecidableEq, Repr

/-- Whether `for (;;)` goes on (RUNNING) or was left by `break` (TERMINATED). -/
inductive Control where
  | running
  | terminated
deriving DecidableEq, Repr

/-- The conversion in `char c = getchar ()`: the low 8 bits, as a signed `char`. -/
def char_of_int (r : Int) : Int := (r + 128) % 2 ^ 8 - 128

/-- The text `"bye.\n"`. -/
def msg_bye : List Byte := [98, 121, 101, 46, 10]

/-- The text `"select terminated with exit status < 1\n"`. -/
def msg_select : List Byte :=
  [115, 101, 108, 101, 99, 116, 32, 116, 101, 114, 109, 105, 110, 97, 116, 101, 100, 32,
    119, 105, 116, 104, 32, 101, 120, 105, 116, 32, 115, 116, 97, 116, 117, 115, 32, 60, 32,
    49, 10]

/-- The loop `while (ln = readLine (fFifo)) storeLine (pLnBuf, &ln);`. -/
def main_drain : Nat → Loop → Except Fault Loop
  | 0, _ => .error .outOfFuel
  | fuel + 1, s =>
    let r := readLine s.fFifo s.heap
    match r.ln with
    | none => .ok ⟨s.pLnBuf, r.file, r.heap, s.stderr ++ r.err⟩
    | some ln =>
      match storeLine s.pLnBuf (some ln) with
      | .error f => .error f
      | .ok st => main_drain fuel ⟨st.pBuf, r.file, r.heap, s.stderr ++ r.err⟩

/-- The block `if (FD_ISSET (STDIN_FILENO, &readfds))` of the loop; `'q'` is 113
and `'p'` is 112. -/
def main_stdin (fuel : Nat) (w : Wakeup) (s : Loop) : Except Fault (Control × Loop) :=
  if w.stdinSet then
    let c := char_of_int w.getcharRet
    if c = 113 then
      .ok (Control.terminated, { s with stderr := s.stderr ++ [Output.fprintf msg_bye] })
    else if c = 112 then
      match printLines fuel s.pLnBuf with
      | .error f => .error f
      | .ok r =>
        .ok (Control.running,
          { s with pLnBuf := r.pBuf, stderr := s.stderr ++ r.file.map Output.fprintf })
    else .ok (Control.running, s)
  else .ok (Control.running, s)

/-- The block `if (FD_ISSET (fdFifo, &readfds))` of the loop. -/
def main_fifo (fuel : Nat) (w : Wakeup) (s : Loop) : Except Fault Loop :=
  if w.fifoSet then main_drain fuel s else .ok s

/-- One pass of the body of `for (;;)`. -/
def main_iteration (fuel : Nat) (w : Wakeup) (s : Loop) : Except Fault (Control × Loop) :=
  if w.selectRet < 1 then
    .ok (Control.terminated,
      { s with stderr := s.stderr ++ [Output.fprintf msg_select, Output.perror Tag.select] })
  else
    match main_stdin fuel w s with
    | .error f => .error f
    | .ok (Control.terminated, s1) => .ok (Control.terminated, s1)
    | .ok (Control.running, s1) =>
      match main_fifo fuel w s1 with
      | .error f => .error f
      | .ok s2 => .ok (Control.running, s2)

/-! ## The whole of `main` -/

/-- Value of `LINE_BUFFER_SIZE`. -/
def LINE_BUFFER_SIZE : Int := 40

/-- Value of `EXIT_SUCCESS`. -/
def EXIT_SUCCESS : Int := 0

/-- Value of `EXIT_FAILURE`. -/
def EXIT_FAILURE : Int := 1

/-- Value of `errno` for "no such file" (Linux). -/
def ENOENT : Int := 2

/-- The text `"dynamic logfile v1.0\n"`. -/
def msg_version : List Byte :=
  [100, 121, 110, 97, 109, 105, 99, 32, 108, 111, 103, 102, 105, 108, 101, 32, 118, 49, 46,
    48, 10]

/-- The text `"Abort with q <ENTER> and print last 10 lines with p <ENTER>.\n"`. -/
def msg_banner : List Byte :=
  [65, 98, 111, 114, 116, 32, 119, 105, 116, 104, 32, 113, 32, 60, 69, 78, 84, 69, 82, 62,
    32, 97, 110, 100, 32, 112, 114, 105, 110, 116, 32, 108, 97, 115, 116, 32, 49, 48, 32,
    108, 105, 110, 101, 115, 32, 119, 105, 116, 104, 32, 112, 32, 60, 69, 78, 84, 69, 82,
    62, 46, 10]

/-- The text of the message for a failed `create_lineBuffer`, which ends in
`"create line buffer.\n"`. -/
def msg_no_buffer : List Byte :=
  [99, 111, 117, 108, 100, 110, 39, 116, 32, 99, 114, 101, 97, 116, 101, 32, 108, 105, 110,
    101, 32, 98, 117, 102, 102, 101, 114, 46, 10]

/-- The text `"Error: file debug exists but is not a fifo. Exiting.\n"`. -/
def msg_not_fifo : List Byte :=
  [69, 114, 114, 111, 114, 58, 32, 102, 105, 108, 101, 32, 100, 101, 98, 117, 103, 32, 101,
    120, 105, 115, 116, 115, 32, 98, 117, 116, 32, 105, 115, 32, 110, 111, 116, 32, 97, 32,
    102, 105, 102, 111, 46, 32, 69, 120, 105, 116, 105, 110, 103, 46, 10]

/-- The text `"debug\n"`: `FIFO_FILE` and a newline. -/
def msg_fifo_name : List Byte := [100, 101, 98, 117, 103, 10]

/-- The text `"exiting ...\n"`. -/
def msg_exiting : List Byte := [101, 120, 105, 116, 105, 110, 103, 32, 46, 46, 46, 10]

/-- The loop `for (i = 0; i < pBuf->nEntries; i++)` of `destroy_linebuffer` from
index `i`: the slots afterwards and the lines that were freed. -/
def destroy_loop (nEntries : Int) :
    Nat → Int → List (Option line) → Except Fault (List (Option line) × List line)
  | fuel, i, list =>
    if i < nEntries then
      match fuel with
      | 0 => .error .outOfFuel
      | fuel1 + 1 =>
        match readSlot list i with
        | .error f => .error f
        | .ok cur =>
          let freed := if cur ≠ none then freeLine cur else (cur, [])
          match writeSlot list i freed.1 with
          | .error f => .error f
          | .ok list1 =>
            match destroy_loop nEntries fuel1 (i + 1) list1 with
            | .error f => .error f
            | .ok (list2, released) => .ok (list2, freed.2 ++ released)
    else .ok (list, [])

/-- The call `destroy_linebuffer (ppBuf)` for a non-null `ppBuf`, as a function
of `*ppBuf`: the value of `*ppBuf` afterwards and the lines that were freed. The
loop makes `nEntries` passes, which is its fuel. -/
def destroy_linebuffer (ppBuf : Option lineBuffer) :
    Except Fault (Option lineBuffer × List line) :=
  match ppBuf with
  | none => .ok (none, [])
  | some pBuf =>
    match destroy_loop pBuf.nEntries pBuf.nEntries.toNat 0 pBuf.list with
    | .error f => .error f
    | .ok (_, released) => .ok (none, released)

/-- What the environment answers to the calls `main` makes before its loop:
`stat` (return value, `errno`, `S_ISFIFO` of the mode), `mkfifo`, `open` and
`fdopen`. -/
structure Setup where
  statRet : Int
  statErrno : Int
  isFifo : Bool
  mkfifoRet : Int
  openRet : Int
  fdopenOk : Bool
deriving DecidableEq, Repr

/-- What happens around one call of `select`: what reaches the fifo while `main`
waits, and what the pass of the loop then gets. -/
structure Event where
  arrived : List GetlineResult
  wakeup : Wakeup
deriving DecidableEq, Repr

/-- The loop `for (;;)` over the events to come: TERMINATED with the state at
the `break`, or RUNNING with the state in which `main` is left waiting in
`select` when no event is left. -/
def main_loop (fuel : Nat) : List Event → Loop → Except Fault (Control × Loop)
  | [], s => .ok (Control.running, s)
  | ev :: evs, s =>
    match main_iteration fuel ev.wakeup
        ⟨s.pLnBuf, ⟨s.fFifo.pending ++ ev.arrived, s.fFifo.error⟩, s.heap, s.stderr⟩ with
    | .error f => .error f
    | .ok (Control.terminated, s1) => .ok (Control.terminated, s1)
    | .ok (Control.running, s1) => main_loop fuel evs s1

/-- What `main` leaves behind when it returns. -/
structure Exit where
  returnStatus : Int
  stderr : List Output
  stdout : List (List Byte)
deriving DecidableEq, Repr

/-- The code of `main` from the label `END`. -/
def main_END (returnStatus : Int) (pLnBuf : Option lineBuffer) (stderr : List Output)
    (stdout : List (List Byte)) : Except Fault Exit :=
  match destroy_linebuffer pLnBuf with
  | .error f => .error f
  | .ok _ => .ok ⟨returnStatus, stderr ++ [Output.fprintf msg_exiting], stdout⟩

/-- The outcome of the block of `main` that looks for the fifo and creates it if
it is not there: `none` when `main` goes on, the message when it jumps to `END`. -/
def main_fifo_setup (setup : Setup) : Option Output :=
  if setup.statRet ≠ 0 then
    if setup.statErrno = ENOENT then
      if setup.mkfifoRet ≠ 0 then some (Output.perror Tag.mkfifo) else none
    else some (Output.perror Tag.stat)
  else if ¬ setup.isFifo then some (Output.fprintf msg_not_fifo)
  else none

/-- The function `main`: `returnStatus` starts as `EXIT_FAILURE` and is set to
`EXIT_SUCCESS` right after the loop. The result is `none` when `main` is left
waiting in `select`. -/
def main (setup : Setup) (heap : Heap) (events : List Event) (fuel : Nat) :
    Except Fault (Option Exit) :=
  let created := create_lineBuffer heap LINE_BUFFER_SIZE
  let err0 := [Output.fprintf msg_version, Output.fprintf msg_banner] ++ created.err
  match created.pBuf with
  | none =>
    (main_END EXIT_FAILURE none (err0 ++ [Output.fprintf msg_no_buffer]) []).map some
  | some pLnBuf =>
    match main_fifo_setup setup with
    | some msg => (main_END EXIT_FAILURE (some pLnBuf) (err0 ++ [msg]) []).map some
    | none =>
      if setup.openRet < 0 then
        (main_END EXIT_FAILURE (some pLnBuf) (err0 ++ [Output.perror Tag.openCall])
          [msg_fifo_name]).map some
      else if ¬ setup.fdopenOk then
        (main_END EXIT_FAILURE (some pLnBuf) (err0 ++ [Output.perror Tag.fdopen])
          [msg_fifo_name]).map some
      else
        match main_loop fuel events ⟨pLnBuf, ⟨[], false⟩, created.heap, err0⟩ with
        | .error f => .error f
        | .ok (Control.running, _) => .ok none
        | .ok (Control.terminated, s) =>
          (main_END EXIT_SUCCESS (some s.pLnBuf) s.stderr [msg_fifo_name]).map some

/-! ## Driving the buffer -/

/-- A run of `storeLine` calls, one per line, each with a non-null line. -/
def storeLines : lineBuffer → List line → Except Fault lineBuffer
  | pBuf, [] => .ok pBuf
  | pBuf, l :: ls =>
    match storeLine pBuf (some l) with
    | .error f => .error f
    | .ok r => storeLines r.pBuf ls

/-- Number of slots of the array that hold a line. -/
def occupied (pBuf : lineBuffer) : Nat := pBuf.list.countP Option.isSome

/-- What a dump writes for one line: nothing when it has no text. -/
def lineText (l : line) : Option (List Byte) := l.szLine.map cstr

/-- The `struct line` that `readLine` makes of the bytes `getline` handed over. -/
def lineOf (bytes : List Byte) : line := ⟨some bytes, bytes.length⟩

/-- A complete line: text up to and including its one newline (byte 10). -/
def completeLine (bytes : List Byte) : Prop :=
  bytes.getLast? = some 10 ∧ (10 : Byte) ∉ bytes.dropLast

instance (bytes : List Byte) : Decidable (completeLine bytes) := by
  unfold completeLine; infer_instance

/-- Nothing is available at the head of what is pending: the read would block
(also past the end), or it is a read of zero bytes. -/
def nothingAvailable : List GetlineResult → Prop
  | [] => True
  | GetlineResult.fail errno :: _ => errno = EAGAIN ∨ errno = EWOULDBLOCK
  | GetlineResult.line bytes :: _ => bytes = []

/-- What a dump writes for one slot. -/
def slotText (s : Option line) : Option (List Byte) := s.bind lineText

/-- The slots in the order a dump visits them: from the cursor, circularly. -/
def window (pBuf : lineBuffer) : List (Option line) := pBuf.list.rotate pBuf.currLine.toNat

/-- The lines the buffer holds, oldest first. -/
def retained (pBuf : lineBuffer) : List line := (window pBuf).reduceOption

/-- The buffer is laid out as `create_lineBuffer` makes it: at least one slot,
`nEntries` of them, and the cursor on one of them. -/
def WellFormed (pBuf : lineBuffer) : Prop :=
  1 ≤ pBuf.nEntries ∧ (pBuf.list.length : Int) = pBuf.nEntries ∧
    0 ≤ pBuf.currLine ∧ pBuf.currLine < pBuf.nEntries

instance (pBuf : lineBuffer) : Decidable (WellFormed pBuf) := by
  unfold WellFormed; infer_instance

/-- The buffers a program can hold: made by `create_lineBuffer (capacity)`, then
passed to `storeLine` and `printLines` any number of times. -/
inductive Reachable (capacity : Int) : lineBuffer → Prop where
  | create (heap : Heap) (b : lineBuffer) :
      (create_lineBuffer heap capacity).pBuf = some b → Reachable capacity b
  | store (b : lineBuffer) (ppLn : Option line) (r : Stored) :
      Reachable capacity b → storeLine b ppLn = .ok r → Reachable capacity r.pBuf
  | print (b : lineBuffer) (fuel : Nat) (r : Printed) :
      Reachable capacity b → printLines fuel b = .ok r → Reachable capacity r.pBuf

/-- The two blocks of one pass of the loop in the order the source does not
have: the drain of the fifo first, the command after it. -/
def drain_then_command (fuel : Nat) (w : Wakeup) (s : Loop) : Except Fault (Control × Loop) :=
  match main_fifo fuel w s with
  | .error f => .error f
  | .ok s1 => main_stdin fuel w s1

/-- The state in which `main` enters its loop when the allocator serves it. -/
def loopStart : Loop :=
  ⟨⟨LINE_BUFFER_SIZE, 0, List.replicate 40 none⟩, ⟨[], false⟩, [],
    [Output.fprintf msg_version, Output.fprintf msg_banner]⟩

/-- A setup in which the fifo is there and opens. -/
def setupOk : Setup := ⟨0, 0, true, 0, 3, true⟩

/-- A wakeup for data alone: `select` succeeded, the fifo is ready and the
command input is not. -/
def dataOnly (w : Wakeup) : Prop :=
  1 ≤ w.selectRet ∧ w.stdinSet = false ∧ w.fifoSet = true

instance (w : Wakeup) : Decidable (dataOnly w) := by
  unfold dataOnly; infer_instance

/-- What the `'p'` command writes for a buffer: one `fprintf` per line held. -/
def dump (pBuf : lineBuffer) : List Output :=
  ((retained pBuf).filterMap lineText).map Output.fprintf

/-! ## Example data -/


/-- The text of a one-letter line: the letter and a newline. -/
def letterLine (c : Byte) : List Byte := [c, 10]

/-- The lines `"a\n"`, `"b\n"`, `"c\n"`, `"d\n"`, `"e\n"`. -/
def fiveLines : List (List Byte) :=
  [letterLine 97, letterLine 98, letterLine 99, letterLine 100, letterLine 101]

/-- An empty buffer of capacity 3, as `create_lineBuffer (3)` returns it. -/
def emptyBuffer3 : lineBuffer := ⟨3, 0, [none, none, none]⟩

/-- A loop state: the empty buffer of capacity 3 and the five lines on the fifo. -/
def fiveLinesPending : Loop :=
  ⟨emptyBuffer3, ⟨fiveLines.map GetlineResult.line, false⟩, [], []⟩

/-- A loop state: the empty buffer of capacity 3 and the line `"a\n"` on the fifo. -/
def oneLinePending : Loop :=
  ⟨emptyBuffer3, ⟨[GetlineResult.line [97, 10]], false⟩, [], []⟩

/-- The eleven lines `"a\n"` to `"k\n"`. -/
def elevenLines : List (List Byte) :=
  [letterLine 97, letterLine 98, letterLine 99, letterLine 100, letterLine 101, letterLine 102,
    letterLine 103, letterLine 104, letterLine 105, letterLine 106, letterLine 107]

/-- A line of four bytes with a NUL byte in it: `a`, NUL, `b`, newline. -/
def nulLine : List Byte := [97, 0, 98, 10]

/-- A loop state: a buffer of capacity 3 that holds `"x\n"` and `"y\n"`. -/
def holdsXY : Loop :=
  ⟨⟨3, 2, [some ⟨some [120, 10], 2⟩, some ⟨some [121, 10], 2⟩, none]⟩, ⟨[], false⟩, [], []⟩

/-! ## Lemmas on the primitives -/

theorem WellFormed.exists_nat {b : lineBuffer} (h : WellFormed b) :
    ∃ c : Nat, c < b.list.length ∧ b = ⟨(b.list.length : Int), (c : Int), b.list⟩ := by
  obtain ⟨h1, h2, h3, h4⟩ := h
  refine ⟨b.currLine.toNat, ?_, ?_⟩
  · omega
  · cases b with
    | mk n c xs =>
      simp only [lineBuffer.mk.injEq, and_true] at *
      omega

theorem wellFormed_nat (xs : List (Option line)) (c : Nat) (h : c < xs.length) :
    WellFormed ⟨(xs.length : Int), (c : Int), xs⟩ := by
  refine ⟨?_, rfl, ?_, ?_⟩ <;> simp <;> omega

theorem readSlot_nat (xs : List (Option line)) (i : Nat) (h : i < xs.length) :
    readSlot xs (i : Int) = .ok (xs.getD i none) := by
  simp [readSlot, h]

theorem writeSlot_nat (xs : List (Option line)) (i : Nat) (v : Option line) (h : i < xs.length) :
    writeSlot xs (i : Int) v = .ok (xs.set i v) := by
  simp [writeSlot, h]

theorem c_mod_nat (i n : Nat) (h : 0 < n) :
    c_mod ((i : Int) + 1) (n : Int) = .ok (((i + 1) % n : Nat) : Int) := by
  have hn : (n : Int) ≠ 0 := by omega
  simp only [c_mod, hn, if_false]
  rw [Int.tmod_eq_emod (by omega) (by omega)]
  norm_cast

theorem mod_of_lt_two_mul (a n : Nat) (h : a < 2 * n) :
    a % n = if a < n then a else a - n := by
  split
  · exact Nat.mod_eq_of_lt (by assumption)
  · rw [Nat.mod_eq_sub_mod (by omega), Nat.mod_eq_of_lt (by omega)]

theorem cstr_eq_self (t : List Byte) (h : (0 : Byte) ∉ t) : cstr t = t := by
  unfold cstr
  rw [List.takeWhile_eq_self_iff]
  intro x hx
  have : x ≠ 0 := fun h0 => h (h0 ▸ hx)
  simpa using this

/-! ## `storeLine` on a well-formed buffer -/

theorem storeLine_nat (xs : List (Option line)) (c : Nat) (l : line) (h : c < xs.length) :
    storeLine ⟨(xs.length : Int), (c : Int), xs⟩ (some l) =
      .ok ⟨⟨(xs.length : Int), (((c + 1) % xs.length : Nat) : Int), xs.set c (some l)⟩, none,
        (xs.getD c none).toList⟩ := by
  have hpos : 0 < xs.length := by omega
  simp only [storeLine, readSlot_nat xs c h]
  cases hc : xs.getD c none with
  | none =>
    simp [freeLine, writeSlot_nat, h, c_mod_nat _ _ hpos, List.set_set]
  | some x =>
    simp [freeLine, writeSlot_nat, h, c_mod_nat _ _ hpos, List.set_set]

theorem rotate_set_succ (xs : List (Option line)) (c : Nat) (v : Option line) (h : c < xs.length) :
    (xs.set c v).rotate ((c + 1) % xs.length) = (xs.rotate c).tail ++ [v] := by
  have e1 : (xs.set c v).rotate ((c + 1) % xs.length) = (xs.set c v).rotate (c + 1) := by
    conv_lhs => rw [← List.length_set xs c v]
    exact List.rotate_mod _ _
  rw [e1]
  obtain ⟨pre, x, post, rfl, hlen⟩ : ∃ pre x post, xs = pre ++ x :: post ∧ pre.length = c :=
    ⟨xs.take c, xs[c], xs.drop (c + 1), by simp, by simp; omega⟩
  subst hlen
  have e2 : (pre ++ x :: post).set pre.length v = pre ++ v :: post := by simp
  rw [e2, ← List.rotate_rotate, List.rotate_append_length_eq, List.rotate_append_length_eq]
  simp [List.rotate_cons_succ]

/-- On a well-formed buffer `storeLine` returns, the buffer stays well-formed
and its window loses its first slot and gains the line at the end. -/
theorem storeLine_wf (b : lineBuffer) (h : WellFormed b) (l : line) :
    ∃ r, storeLine b (some l) = .ok r ∧ WellFormed r.pBuf ∧
      r.pBuf.nEntries = b.nEntries ∧ r.pBuf.list.length = b.list.length ∧
      window r.pBuf = (window b).tail ++ [some l] := by
  obtain ⟨c, hc, hb⟩ := h.exists_nat
  have hlt : (c + 1) % b.list.length < b.list.length := Nat.mod_lt _ (by omega)
  refine ⟨_, by rw [hb]; exact storeLine_nat b.list c l hc, ?_, ?_, ?_, ?_⟩
  · have := wellFormed_nat (b.list.set c (some l)) ((c + 1) % b.list.length) (by simpa using hlt)
    simpa using this
  · exact h.2.1
  · simp
  · have hw : window b = b.list.rotate c := by rw [hb]; simp [window]
    rw [hw]
    simpa [window] using rotate_set_succ b.list c (some l) hc

theorem storeLines_wf (ls : List line) :
    ∀ b : lineBuffer, WellFormed b →
      ∃ b', storeLines b ls = .ok b' ∧ WellFormed b' ∧ b'.nEntries = b.nEntries ∧
        b'.list.length = b.list.length ∧
        window b' = (window b ++ ls.map some).drop ls.length := by
  induction ls with
  | nil => intro b h; exact ⟨b, rfl, h, rfl, rfl, by simp⟩
  | cons l ls ih =>
    intro b h
    obtain ⟨r, hr, hwf, hn, hlen, hwin⟩ := storeLine_wf b h l
    obtain ⟨b', hb', hwf', hn', hlen', hwin'⟩ := ih r.pBuf hwf
    refine ⟨b', by simp [storeLines, hr, hb'], hwf', by omega, by omega, ?_⟩
    have hne : window b ≠ [] := by
      intro h0
      have h1 := congrArg List.length h0
      have h2 := h.1
      have h3 := h.2.1
      simp only [window, List.length_rotate, List.length_nil] at h1
      omega
    obtain ⟨x, xs, hx⟩ := List.exists_cons_of_ne_nil hne
    rw [hwin', hwin, hx]
    simp

/-! ## `printLines` on a well-formed buffer -/

theorem printLines_body_nat (xs : List (Option line)) (c i : Nat) (hi : i < xs.length) :
    printLines_body ⟨(xs.length : Int), (c : Int), xs⟩ (i : Int) =
      .ok ((slotText (xs.getD i none)).toList, (((i + 1) % xs.length : Nat) : Int)) := by
  have hpos : 0 < xs.length := by omega
  simp only [printLines_body, readSlot_nat xs i hi, c_mod_nat _ _ hpos]
  cases xs.getD i none with
  | none => rfl
  | some l =>
    cases hl : l.szLine with
    | none => simp [slotText, lineText, hl]
    | some sz => simp [slotText, lineText, hl]

/-- With `r` passes left the loop stands at the slot `r` places before the end
of the window, and it writes the rest of the window. -/
theorem printLines_loop_nat (xs : List (Option line)) (c : Nat) (hc : c < xs.length) :
    ∀ (r fuel : Nat), 1 ≤ r → r ≤ xs.length → r ≤ fuel →
      printLines_loop ⟨(xs.length : Int), (c : Int), xs⟩ fuel
          (((c + (xs.length - r)) % xs.length : Nat) : Int) =
        .ok (((xs.rotate c).drop (xs.length - r)).filterMap slotText) := by
  intro r
  induction r with
  | zero => intro fuel h; omega
  | succ k ih =>
    intro fuel _ hk hf
    obtain ⟨fuel, rfl⟩ : ∃ f, fuel = f + 1 := ⟨fuel - 1, by omega⟩
    have hlt : (c + (xs.length - (k + 1))) % xs.length < xs.length := Nat.mod_lt _ (by omega)
    have hidx : xs.length - (k + 1) < (xs.rotate c).length := by
      rw [List.length_rotate]; omega
    have hdrop := List.drop_eq_getElem_cons hidx
    have hget : (xs.rotate c)[xs.length - (k + 1)] =
        xs.getD ((c + (xs.length - (k + 1))) % xs.length) none := by
      rw [List.getElem_rotate, List.getD_eq_getElem _ _ hlt, Nat.add_comm]
    have hnext : ((c + (xs.length - (k + 1))) % xs.length + 1) % xs.length =
        (c + (xs.length - k)) % xs.length := by
      rw [Nat.mod_add_mod]
      congr 1
      omega
    rw [printLines_loop, printLines_body_nat xs c _ hlt, hnext, hdrop, hget]
    by_cases hk0 : k = 0
    · subst hk0
      have e : (c + (xs.length - 0)) % xs.length = c := by
        simp [Nat.mod_eq_of_lt hc]
      have e3 : List.drop (xs.length - (0 + 1) + 1) (xs.rotate c) = [] := by
        apply List.drop_of_length_le
        rw [List.length_rotate]; omega
      simp only [e, ne_eq, not_true_eq_false, if_false, e3]
      generalize xs.getD ((c + (xs.length - (0 + 1))) % xs.length) none = s
      cases hs : slotText s <;> simp [List.filterMap_cons, hs]
    · have hne : (((c + (xs.length - k)) % xs.length : Nat) : Int) ≠ (c : Int) := by
        rw [mod_of_lt_two_mul _ _ (by omega)]
        split <;> omega
      have e3 : xs.length - (k + 1) + 1 = xs.length - k := by omega
      simp only [hne, ne_eq, not_false_eq_true, if_true, e3]
      rw [ih fuel (by omega) (by omega) (by omega)]
      generalize xs.getD ((c + (xs.length - (k + 1))) % xs.length) none = s
      cases hs : slotText s <;> simp [List.filterMap_cons, hs]

/-- On a well-formed buffer, with one unit of fuel per slot, `printLines`
returns, leaves the buffer as it was and writes the window. -/
theorem printLines_wf (b : lineBuffer) (h : WellFormed b) (fuel : Nat)
    (hf : b.list.length ≤ fuel) :
    printLines fuel b = .ok ⟨b, (window b).filterMap slotText⟩ := by
  obtain ⟨c, hc, hb⟩ := h.exists_nat
  have hl := printLines_loop_nat b.list c hc b.list.length fuel (by omega) (by omega) hf
  have hw : window b = b.list.rotate c := by rw [hb]; simp [window]
  have hcur : b.currLine = (c : Int) := by rw [hb]
  rw [hw]
  unfold printLines
  rw [hcur]
  rw [hb]
  simp only [Nat.sub_self, Nat.add_zero, Nat.mod_eq_of_lt hc, List.drop_zero] at hl
  simp only [hl]

/-! ## The fresh buffer and its history -/

theorem create_lineBuffer_some (heap : Heap) (n : Int) (b : lineBuffer)
    (h : (create_lineBuffer heap n).pBuf = some b) :
    b = ⟨n, 0, List.replicate n.toNat none⟩ := by
  unfold create_lineBuffer at h
  split at h
  · simp at h
  · split at h
    · simp at h
    · simpa using h.symm

theorem create_lineBuffer_wf (heap : Heap) (n : Int) (b : lineBuffer) (hn : 1 ≤ n)
    (h : (create_lineBuffer heap n).pBuf = some b) :
    WellFormed b ∧ b.nEntries = n ∧ b.list.length = n.toNat ∧
      window b = List.replicate n.toNat none := by
  rw [create_lineBuffer_some heap n b h]
  refine ⟨⟨hn, ?_, ?_, ?_⟩, rfl, ?_, ?_⟩
  · simp; omega
  · simp
  · simp; omega
  · simp
  · simp [window]

theorem fresh_window (n : Nat) (ls : List line) :
    (List.replicate n (none : Option line) ++ ls.map some).drop ls.length =
      List.replicate (n - ls.length) none ++ (ls.drop (ls.length - n)).map some := by
  rw [List.drop_append_eq_append_drop]
  simp [List.map_drop]

theorem filterMap_slotText_fresh (m : Nat) (ls : List line) :
    (List.replicate m (none : Option line) ++ ls.map some).filterMap slotText =
      ls.filterMap lineText := by
  rw [List.filterMap_append, List.filterMap_map]
  have e : (List.replicate m (none : Option line)).filterMap slotText = [] := by
    induction m with
    | zero => rfl
    | succ k ih => simp [List.replicate_succ, slotText]
  have e2 : slotText ∘ some = lineText := by
    funext l
    simp [slotText]
  rw [e, e2, List.nil_append]

theorem countP_isSome_fresh (m : Nat) (ls : List line) :
    (List.replicate m (none : Option line) ++ ls.map some).countP Option.isSome = ls.length := by
  rw [List.countP_append]
  have e : (List.replicate m (none : Option line)).countP Option.isSome = 0 := by
    induction m with
    | zero => rfl
    | succ k ih => simp [List.replicate_succ]
  have e2 : (ls.map some).countP Option.isSome = ls.length := by
    induction ls with
    | nil => rfl
    | cons a t ih => simp
  rw [e, e2, Nat.zero_add]

/-- After any run of stores into a fresh buffer the window is: the slots never
written, then the last lines still held, oldest first. -/
theorem storeLines_fresh (heap : Heap) (capacity : Int) (b : lineBuffer) (ls : List line)
    (hcap : 1 ≤ capacity) (hb : (create_lineBuffer heap capacity).pBuf = some b) :
    ∃ b', storeLines b ls = .ok b' ∧ WellFormed b' ∧ b'.nEntries = capacity ∧
      b'.list.length = capacity.toNat ∧
      window b' = List.replicate (capacity.toNat - ls.length) none ++
        (ls.drop (ls.length - capacity.toNat)).map some := by
  obtain ⟨hwf, hn, hlen, hwin⟩ := create_lineBuffer_wf heap capacity b hcap hb
  obtain ⟨b', hb', hwf', hn', hlen', hwin'⟩ := storeLines_wf ls b hwf
  refine ⟨b', hb', hwf', by omega, by omega, ?_⟩
  rw [hwin', hwin, fresh_window]

theorem reachable_wf (capacity : Int) (b : lineBuffer) (hcap : 1 ≤ capacity)
    (h : Reachable capacity b) : WellFormed b ∧ b.nEntries = capacity := by
  induction h with
  | create heap b hb =>
    obtain ⟨hwf, hn, -, -⟩ := create_lineBuffer_wf heap capacity b hcap hb
    exact ⟨hwf, hn⟩
  | store b ppLn r _ hr ih =>
    cases ppLn with
    | none =>
      simp only [storeLine, Except.ok.injEq] at hr
      subst hr
      exact ih
    | some l =>
      obtain ⟨r', hr', hwf, hn, -, -⟩ := storeLine_wf b ih.1 l
      rw [hr] at hr'
      cases hr'
      exact ⟨hwf, by rw [hn]; exact ih.2⟩
  | print b fuel r _ hr ih =>
    unfold printLines at hr
    split at hr
    · cases hr
    · cases hr
      exact ih

/-! ## Claims on the ring buffer -/

/-- C1, as stated, fails: a stored line whose `szLine` is `NULL` is not written
at all (no write for one line held), and of the stored line `a`, NUL, `b`,
newline only the byte `a` is written. -/
theorem C1_dump_is_not_the_stored_lines :
    (create_lineBuffer [] 1).pBuf = some ⟨1, 0, [none]⟩ ∧
      (∃ b' r, storeLines ⟨1, 0, [none]⟩ [⟨none, 0⟩] = .ok b' ∧ printLines 1 b' = .ok r ∧
        r.file = [] ∧ r.file.length ≠ min 1 1) ∧
      (∃ b' r, storeLines ⟨1, 0, [none]⟩ [lineOf nulLine] = .ok b' ∧
        printLines 1 b' = .ok r ∧ r.file = [[97]] ∧ r.file ≠ [nulLine]) :=
  ⟨rfl, ⟨_, _, rfl, rfl, rfl, by decide⟩, ⟨_, _, rfl, rfl, rfl, by decide⟩⟩

/-- C1, amended: for every capacity of at least 1 and every run of stores of
non-null lines into a fresh buffer, `printLines` returns and writes, for the
last `min k capacity` of the `k` stored lines, oldest first, the bytes of each
line that stand before its first NUL byte, and nothing for a line whose `szLine`
is `NULL`; when every line has a text there are `min k capacity` writes, when
moreover no text holds a NUL byte the writes are exactly those lines, and after
`capacity + 1` stores the writes are those of the second to the last line. -/
theorem C1_printLines_yields_last_lines (heap : Heap) (capacity : Int) (b : lineBuffer)
    (ls : List line) (fuel : Nat) (hcap : 1 ≤ capacity)
    (hb : (create_lineBuffer heap capacity).pBuf = some b) (hfuel : capacity.toNat ≤ fuel) :
    ∃ b' r, storeLines b ls = .ok b' ∧ printLines fuel b' = .ok r ∧
      r.file = (ls.drop (ls.length - min ls.length capacity.toNat)).filterMap lineText ∧
      ((∀ l ∈ ls, l.szLine ≠ none) →
        r.file.length = min ls.length capacity.toNat ∧
        r.file = (ls.drop (ls.length - min ls.length capacity.toNat)).map
          (fun l => cstr (l.szLine.getD []))) ∧
      (ls.length = capacity.toNat + 1 → r.file = ls.tail.filterMap lineText) ∧
      ((∀ l ∈ ls, ∃ t, l.szLine = some t ∧ (0 : Byte) ∉ t) →
        r.file = (ls.drop (ls.length - min ls.length capacity.toNat)).map
          (fun l => l.szLine.getD [])) := by
  obtain ⟨b', hb', hwf', -, hlen', hwin'⟩ := storeLines_fresh heap capacity b ls hcap hb
  have hp := printLines_wf b' hwf' fuel (by omega)
  have hmin : ls.length - min ls.length capacity.toNat = ls.length - capacity.toNat := by omega
  have hfile : (window b').filterMap slotText =
      (ls.drop (ls.length - min ls.length capacity.toNat)).filterMap lineText := by
    rw [hwin', filterMap_slotText_fresh, hmin]
  refine ⟨b', _, hb', hp, hfile, ?_, ?_, ?_⟩
  · intro hall
    have hmap : ∀ xs : List line, (∀ l ∈ xs, l.szLine ≠ none) →
        xs.filterMap lineText = xs.map (fun l => cstr (l.szLine.getD [])) := by
      intro xs
      induction xs with
      | nil => intro _; rfl
      | cons a t ih =>
        intro ha
        have h1 := ha a (List.mem_cons_self _ _)
        have h2 := ih (fun l hl => ha l (List.mem_cons_of_mem _ hl))
        cases hs : a.szLine with
        | none => exact absurd hs h1
        | some sz => simp [List.filterMap_cons, lineText, hs, h2]
    have hd : ∀ l ∈ ls.drop (ls.length - min ls.length capacity.toNat), l.szLine ≠ none :=
      fun l hl => hall l (List.mem_of_mem_drop hl)
    have e := hmap _ hd
    refine ⟨?_, ?_⟩
    · show ((window b').filterMap slotText).length = _
      rw [hfile, e, List.length_map, List.length_drop]
      omega
    · show (window b').filterMap slotText = _
      rw [hfile, e]
  · intro hk
    show (window b').filterMap slotText = _
    rw [hfile]
    have e1 : ls.length - min ls.length capacity.toNat = 1 := by omega
    rw [e1, List.drop_one]
  · intro hall
    have hmap : ∀ xs : List line, (∀ l ∈ xs, ∃ t, l.szLine = some t ∧ (0 : Byte) ∉ t) →
        xs.filterMap lineText = xs.map (fun l => l.szLine.getD []) := by
      intro xs
      induction xs with
      | nil => intro _; rfl
      | cons a t ih =>
        intro ha
        obtain ⟨x, hx, h0⟩ := ha a (List.mem_cons_self _ _)
        have h2 := ih (fun l hl => ha l (List.mem_cons_of_mem _ hl))
        simp [List.filterMap_cons, lineText, hx, cstr_eq_self x h0, h2]
    show (window b').filterMap slotText = _
    rw [hfile]
    exact hmap _ (fun l hl => hall l (List.mem_of_mem_drop hl))

/-- C2: for every capacity of at least 1 and every run of stores of non-null
lines into a fresh buffer, after the first `k` stores exactly `min k capacity`
slots are occupied. -/
theorem C2_occupied_slots (heap : Heap) (capacity : Int) (b : lineBuffer) (ls : List line)
    (k : Nat) (hcap : 1 ≤ capacity) (hb : (create_lineBuffer heap capacity).pBuf = some b)
    (hk : k ≤ ls.length) :
    ∃ b', storeLines b (ls.take k) = .ok b' ∧ occupied b' = min k capacity.toNat := by
  obtain ⟨b', hb', -, -, -, hwin'⟩ := storeLines_fresh heap capacity b (ls.take k) hcap hb
  refine ⟨b', hb', ?_⟩
  have hperm : (window b').countP Option.isSome = occupied b' :=
    List.Perm.countP_eq _ (List.rotate_perm _ _)
  rw [← hperm, hwin']
  have e := countP_isSome_fresh (capacity.toNat - (ls.take k).length)
    ((ls.take k).drop ((ls.take k).length - capacity.toNat))
  simp only [List.map_drop] at e ⊢
  rw [e]
  simp only [List.length_drop, List.length_take]
  omega

/-- C3: on a buffer with at least one slot and the cursor `c` on one of them,
`storeLine` with a non-null line returns (it has no failure), leaves that line
in slot `c`, moves the cursor to `(c + 1) mod nEntries`, keeps `nEntries` and
clears the caller's pointer. -/
theorem C3_storeLine_effect (b : lineBuffer) (l : line) (h : WellFormed b) :
    ∃ r, storeLine b (some l) = .ok r ∧
      readSlot r.pBuf.list b.currLine = .ok (some l) ∧
      r.pBuf.currLine = (b.currLine + 1) % b.nEntries ∧
      r.pBuf.nEntries = b.nEntries ∧ r.ppLn = none := by
  obtain ⟨c, hc, hb⟩ := h.exists_nat
  have hs := storeLine_nat b.list c l hc
  rw [← hb] at hs
  refine ⟨_, hs, ?_, ?_, ?_, rfl⟩
  · have hcur : b.currLine = (c : Int) := by rw [hb]
    rw [hcur, readSlot_nat _ c (by simpa using hc)]
    simp [hc]
  · have hcur : b.currLine = (c : Int) := by rw [hb]
    have hn : b.nEntries = (b.list.length : Int) := by rw [hb]
    rw [hcur, hn]
    push_cast
    rfl
  · exact h.2.1

/-- C4: on such a buffer `storeLine` with a non-null line changes no slot but
the one at the old cursor, and frees exactly the line that slot held, if it held
one: one line when the buffer was full, none when the slot was empty. -/
theorem C4_storeLine_frame (b : lineBuffer) (l : line) (h : WellFormed b) :
    ∃ r, storeLine b (some l) = .ok r ∧
      (∀ i : Int, i ≠ b.currLine → readSlot r.pBuf.list i = readSlot b.list i) ∧
      (∃ old, readSlot b.list b.currLine = .ok old ∧ r.released = old.toList) ∧
      ((∀ s ∈ b.list, s ≠ none) → r.released.length = 1) ∧
      (readSlot b.list b.currLine = .ok none → r.released = []) := by
  obtain ⟨c, hc, hb⟩ := h.exists_nat
  have hs := storeLine_nat b.list c l hc
  rw [← hb] at hs
  have hcur : b.currLine = (c : Int) := by rw [hb]
  have hread : readSlot b.list b.currLine = .ok (b.list.getD c none) := by
    rw [hcur]; exact readSlot_nat _ c hc
  refine ⟨_, hs, ?_, ⟨_, hread, rfl⟩, ?_, ?_⟩
  · intro i hi
    rw [hcur] at hi
    simp only [readSlot, List.length_set]
    split
    · next hin =>
      have hne : c ≠ i.toNat := by omega
      simp [List.getD_eq_getElem?_getD, List.getElem?_set_ne hne]
    · rfl
  · intro hall
    have hmem : b.list.getD c none ∈ b.list := by
      rw [List.getD_eq_getElem _ _ hc]
      exact List.getElem_mem _
    have hne := hall _ hmem
    show (b.list.getD c none).toList.length = 1
    cases hx : b.list.getD c none with
    | none => exact absurd hx hne
    | some x => rfl
  · intro hnone
    rw [hread] at hnone
    have hx : b.list.getD c none = none := Except.ok.inj hnone
    show (b.list.getD c none).toList = []
    rw [hx]
    rfl

/-- C5: with a capacity of at least 1 the cursor is a valid slot index in every
reachable state: it is after `create_lineBuffer`, and from a reachable state
every `storeLine` call and every `printLines` call (given its fuel) returns and
leaves it one. -/
theorem C5_cursor_valid (capacity : Int) (b : lineBuffer) (hcap : 1 ≤ capacity)
    (h : Reachable capacity b) :
    (0 ≤ b.currLine ∧ b.currLine < b.nEntries) ∧
      (∀ ppLn, ∃ r, storeLine b ppLn = .ok r ∧
        0 ≤ r.pBuf.currLine ∧ r.pBuf.currLine < r.pBuf.nEntries) ∧
      (∀ fuel, b.list.length ≤ fuel → ∃ r, printLines fuel b = .ok r ∧
        0 ≤ r.pBuf.currLine ∧ r.pBuf.currLine < r.pBuf.nEntries) := by
  obtain ⟨hwf, -⟩ := reachable_wf capacity b hcap h
  refine ⟨⟨hwf.2.2.1, hwf.2.2.2⟩, ?_, ?_⟩
  · intro ppLn
    cases ppLn with
    | none => exact ⟨_, rfl, hwf.2.2.1, hwf.2.2.2⟩
    | some l =>
      obtain ⟨r, hr, hwf', -⟩ := storeLine_wf b hwf l
      exact ⟨r, hr, hwf'.2.2.1, hwf'.2.2.2⟩
  · intro fuel hf
    exact ⟨_, printLines_wf b hwf fuel hf, hwf.2.2.1, hwf.2.2.2⟩

/-- C6: on a buffer with at least one slot and a valid cursor `printLines`
returns with the slots, the cursor and the capacity as they were, and a second
call right after it writes the same strings as the first. -/
theorem C6_printLines_read_only (b : lineBuffer) (fuel fuel2 : Nat) (h : WellFormed b)
    (hf : b.list.length ≤ fuel) (hf2 : b.list.length ≤ fuel2) :
    ∃ r, printLines fuel b = .ok r ∧
      r.pBuf.list = b.list ∧ r.pBuf.currLine = b.currLine ∧ r.pBuf.nEntries = b.nEntries ∧
      ∃ r2, printLines fuel2 r.pBuf = .ok r2 ∧ r2.file = r.file ∧ r2.pBuf = b := by
  refine ⟨_, printLines_wf b h fuel hf, rfl, rfl, rfl, ?_⟩
  exact ⟨_, printLines_wf b h fuel2 hf2, rfl, rfl⟩

/-- C7: for every capacity of at least 1, `printLines` on the buffer that
`create_lineBuffer` returned, before any store, returns and writes nothing. -/
theorem C7_fresh_buffer_prints_nothing (heap : Heap) (capacity : Int) (b : lineBuffer)
    (fuel : Nat) (hcap : 1 ≤ capacity) (hb : (create_lineBuffer heap capacity).pBuf = some b)
    (hfuel : capacity.toNat ≤ fuel) :
    ∃ r, printLines fuel b = .ok r ∧ r.file = [] := by
  obtain ⟨hwf, -, hlen, hwin⟩ := create_lineBuffer_wf heap capacity b hcap hb
  refine ⟨_, printLines_wf b hwf fuel (by omega), ?_⟩
  show (window b).filterMap slotText = []
  rw [hwin]
  have e := filterMap_slotText_fresh capacity.toNat []
  simpa using e

/-- C8, as stated, fails: with memory at hand `create_lineBuffer (0)` returns a
buffer, one with no slot, not the failure result. -/
theorem C8_create_zero_returns_buffer :
    (create_lineBuffer [] 0).pBuf = some ⟨0, 0, []⟩ ∧ (create_lineBuffer [] 0).pBuf ≠ none := by
  decide

/-- C8, amended: `create_lineBuffer` does not look at its argument;
`create_lineBuffer (0)` fails exactly when one of its two allocations is
refused, and otherwise returns a buffer with `nEntries = 0`, the cursor at 0 and
no slot. -/
theorem C8_create_zero_amended (heap : Heap) :
    (create_lineBuffer heap 0).pBuf =
      if heap.getD 0 true && heap.getD 1 true then some ⟨0, 0, []⟩ else none := by
  match heap with
  | [] => decide
  | [a] => cases a <;> decide
  | a :: a2 :: rest =>
    cases a <;> cases a2 <;>
      simp [create_lineBuffer, calloc, SIZE_MAX, sizeof_lineBuffer, sizeof_line, size_t_of_int]

/-! ## Claims on the loop of `main` -/

theorem readLine_nothing (file : Stream) (heap : Heap) (h : nothingAvailable file.pending) :
    ∃ e, readLine file heap = ⟨none, ⟨file.pending.tail, e⟩, heap, []⟩ := by
  obtain ⟨pending, err⟩ := file
  match pending, h with
  | [], _ => exact ⟨false, by simp [readLine, getline, EAGAIN, EWOULDBLOCK]⟩
  | GetlineResult.fail errno :: tl, h =>
    refine ⟨false, ?_⟩
    have h' : errno = EAGAIN ∨ errno = EWOULDBLOCK := h
    simp [readLine, getline, h']
  | GetlineResult.line bytes :: tl, h =>
    refine ⟨err, ?_⟩
    have h' : bytes = [] := h
    simp [readLine, getline, h']

theorem readLine_line (bytes : List Byte) (tl : List GetlineResult) (err : Bool) (heap : Heap)
    (hb : bytes ≠ []) (hh : ∀ a ∈ heap.take 1, a = true) :
    readLine ⟨GetlineResult.line bytes :: tl, err⟩ heap =
      ⟨some (lineOf bytes), ⟨tl, err⟩, heap.drop 1, []⟩ := by
  have hlen : bytes.length ≠ 0 := by
    intro h0
    exact hb (List.length_eq_zero.mp h0)
  match heap, hh with
  | [], _ =>
    simp [readLine, getline, hlen, calloc, sizeof_line, SIZE_MAX, lineOf]
  | a :: rest, hh =>
    have ha : a = true := hh a (by simp)
    subst ha
    simp [readLine, getline, hlen, calloc, sizeof_line, SIZE_MAX, lineOf]

/-- The drain loop stores every pending line, in order, and stops at the first
read that finds nothing. -/
theorem main_drain_lines (lines : List (List Byte)) :
    ∀ (s : Loop) (rest : List GetlineResult) (fuel : Nat), WellFormed s.pLnBuf →
      (∀ bytes ∈ lines, bytes ≠ []) →
      s.fFifo.pending = lines.map GetlineResult.line ++ rest → nothingAvailable rest →
      (∀ a ∈ s.heap.take lines.length, a = true) → lines.length < fuel →
      ∃ b' e, storeLines s.pLnBuf (lines.map lineOf) = .ok b' ∧
        main_drain fuel s = .ok ⟨b', ⟨rest.tail, e⟩, s.heap.drop lines.length, s.stderr⟩ := by
  induction lines with
  | nil =>
    intro s rest fuel _ _ hp hrest _ hf
    obtain ⟨fuel, rfl⟩ : ∃ f, fuel = f + 1 := ⟨fuel - 1, by omega⟩
    have hp' : s.fFifo.pending = rest := by simpa using hp
    obtain ⟨e, he⟩ := readLine_nothing s.fFifo s.heap (by rw [hp']; exact hrest)
    refine ⟨s.pLnBuf, e, rfl, ?_⟩
    simp [main_drain, he, hp']
  | cons bytes ls ih =>
    intro s rest fuel hwf hne hp hrest hheap hf
    obtain ⟨fuel, rfl⟩ : ∃ f, fuel = f + 1 := ⟨fuel - 1, by omega⟩
    obtain ⟨b, fifo, heap, err⟩ := s
    obtain ⟨pending, ferr⟩ := fifo
    simp only [List.map_cons, List.cons_append] at hp
    subst hp
    have hh1 : ∀ a ∈ heap.take 1, a = true := by
      cases heap with
      | nil => simp
      | cons x h =>
        intro a ha
        apply hheap
        simp only [List.take_succ_cons, List.take_zero, List.mem_singleton] at ha
        simp [ha]
    have hh2 : ∀ a ∈ (heap.drop 1).take ls.length, a = true := by
      cases heap with
      | nil => simp
      | cons x h =>
        intro a ha
        apply hheap
        simp only [List.drop_succ_cons, List.drop_zero] at ha
        simp [ha]
    have hr := readLine_line bytes (ls.map GetlineResult.line ++ rest) ferr heap
      (hne bytes (List.mem_cons_self _ _)) hh1
    obtain ⟨st, hst, hwf', -⟩ := storeLine_wf b hwf (lineOf bytes)
    obtain ⟨b', e, hb', hd⟩ := ih ⟨st.pBuf, ⟨ls.map GetlineResult.line ++ rest, ferr⟩,
      heap.drop 1, err⟩ rest fuel hwf'
      (fun x hx => hne x (List.mem_cons_of_mem _ hx)) rfl hrest hh2
      (by simp at hf; omega)
    refine ⟨b', e, ?_, ?_⟩
    · simp [storeLines, hst, hb']
    · simp only [main_drain, hr, hst, List.append_nil]
      simpa [List.drop_drop, Nat.add_comm] using hd

theorem reduceOption_fresh (m : Nat) (ls : List line) :
    (List.replicate m (none : Option line) ++ ls.map some).reduceOption = ls := by
  rw [List.reduceOption_append]
  have e : (List.replicate m (none : Option line)).reduceOption = [] := by
    induction m with
    | zero => rfl
    | succ k ih => simp [List.replicate_succ, ih]
  have e2 : (ls.map some).reduceOption = ls := by
    induction ls with
    | nil => rfl
    | cons a t ih => simp [ih]
  rw [e, e2, List.nil_append]

theorem completeLine_ne_nil (bytes : List Byte) (h : completeLine bytes) : bytes ≠ [] := by
  intro h0
  subst h0
  exact absurd h.1 (by simp)

/-- When the command is not the quit command, the command block leaves the loop
RUNNING and changes nothing but what is on `stderr`. -/
theorem main_stdin_running (fuel : Nat) (w : Wakeup) (s : Loop) (hwf : WellFormed s.pLnBuf)
    (hf : s.pLnBuf.list.length ≤ fuel)
    (hq : w.stdinSet = true → char_of_int w.getcharRet ≠ 113) :
    ∃ out, main_stdin fuel w s =
      .ok (Control.running, ⟨s.pLnBuf, s.fFifo, s.heap, s.stderr ++ out⟩) := by
  unfold main_stdin
  by_cases hs : w.stdinSet = true
  · have hq' := hq hs
    by_cases hp : char_of_int w.getcharRet = 112
    · refine ⟨((window s.pLnBuf).filterMap slotText).map Output.fprintf, ?_⟩
      simp [hs, hq', hp, printLines_wf s.pLnBuf hwf fuel hf]
    · exact ⟨[], by simp [hs, hq', hp]⟩
  · exact ⟨[], by simp [hs]⟩

/-- C9: for every buffer with at least one slot and a valid cursor, and every
finite list of complete lines pending on the fifo with nothing available after
them, one pass of the loop in which `select` reports the fifo ready and which
is not ended by the quit command returns in RUNNING with every one of those
lines stored, in order, by the drain loop (each line record being allocated);
from an empty buffer the lines held afterwards are the last `capacity` of them,
oldest first. -/
theorem C9_drain_to_exhaustion (s : Loop) (w : Wakeup) (lines : List (List Byte))
    (rest : List GetlineResult) (fuel : Nat) (hwf : WellFormed s.pLnBuf)
    (hlines : ∀ bytes ∈ lines, completeLine bytes)
    (hfifo : s.fFifo.pending = lines.map GetlineResult.line ++ rest)
    (hrest : nothingAvailable rest) (hheap : ∀ a ∈ s.heap.take lines.length, a = true)
    (hsel : 1 ≤ w.selectRet) (hdata : w.fifoSet = true)
    (hcmd : w.stdinSet = true → char_of_int w.getcharRet ≠ 113)
    (hfuel : lines.length < fuel) (hfuel2 : s.pLnBuf.list.length ≤ fuel) :
    ∃ s', main_iteration fuel w s = .ok (Control.running, s') ∧
      storeLines s.pLnBuf (lines.map lineOf) = .ok s'.pLnBuf ∧
      s'.fFifo.pending = rest.tail ∧
      window s'.pLnBuf =
        (window s.pLnBuf ++ (lines.map lineOf).map some).drop lines.length ∧
      ((∀ x ∈ s.pLnBuf.list, x = none) →
        retained s'.pLnBuf = (lines.map lineOf).drop (lines.length - s.pLnBuf.list.length)) := by
  obtain ⟨out, hout⟩ := main_stdin_running fuel w s hwf hfuel2 hcmd
  obtain ⟨b', e, hb', hd⟩ := main_drain_lines lines
    ⟨s.pLnBuf, s.fFifo, s.heap, s.stderr ++ out⟩ rest fuel hwf
    (fun bytes hb => completeLine_ne_nil bytes (hlines bytes hb)) hfifo hrest hheap hfuel
  obtain ⟨b2, hb2, -, -, -, hwin⟩ := storeLines_wf (lines.map lineOf) s.pLnBuf hwf
  have hb'' : storeLines s.pLnBuf (lines.map lineOf) = .ok b' := hb'
  rw [hb''] at hb2
  cases hb2
  have hns : ¬ w.selectRet < 1 := by omega
  have hwin' : window b' =
      (window s.pLnBuf ++ (lines.map lineOf).map some).drop lines.length := by
    simpa using hwin
  refine ⟨⟨b', ⟨rest.tail, e⟩, s.heap.drop lines.length, s.stderr ++ out⟩, ?_, hb'', rfl,
    hwin', ?_⟩
  · simp [main_iteration, hns, hout, main_fifo, hdata, hd]
  · intro hempty
    have hrep : window s.pLnBuf = List.replicate s.pLnBuf.list.length none := by
      unfold window
      rw [List.eq_replicate_of_mem hempty, List.rotate_replicate, List.length_replicate]
    have hf := fresh_window s.pLnBuf.list.length (lines.map lineOf)
    simp only [List.length_map] at hf
    show (window b').reduceOption = _
    rw [hwin', hrep, hf, reduceOption_fresh]

/-- C10: in every pass of the loop in which `select` succeeded, the command
input is ready and `getchar` delivers `'q'`, the farewell message is written to
`stderr`, the loop is left in that same pass, and neither the fifo is read nor
the ring buffer touched, whether or not the fifo was ready too. -/
theorem C10_quit (s : Loop) (w : Wakeup) (fuel : Nat) (hsel : 1 ≤ w.selectRet)
    (hcmd : w.stdinSet = true) (hq : w.getcharRet = 113) :
    ∃ s', main_iteration fuel w s = .ok (Control.terminated, s') ∧
      s'.stderr = s.stderr ++ [Output.fprintf msg_bye] ∧
      s'.fFifo = s.fFifo ∧ s'.heap = s.heap ∧
      s'.pLnBuf.list = s.pLnBuf.list ∧ s'.pLnBuf.currLine = s.pLnBuf.currLine ∧
      s'.pLnBuf = s.pLnBuf := by
  have hns : ¬ w.selectRet < 1 := by omega
  refine ⟨{ s with stderr := s.stderr ++ [Output.fprintf msg_bye] }, ?_, rfl, rfl, rfl, rfl,
    rfl, rfl⟩
  simp [main_iteration, hns, main_stdin, hcmd, hq, char_of_int]

/-! ## The claims at concrete inputs -/

/-- C1, amended, at capacity 3 with the five one-letter lines: the dump writes
the lines c, d, e. -/
theorem C1_printLines_yields_last_lines_witness :
    ∃ b' r, storeLines emptyBuffer3 (fiveLines.map lineOf) = .ok b' ∧
      printLines 3 b' = .ok r ∧
      r.file = [letterLine 99, letterLine 100, letterLine 101] := by
  obtain ⟨b', r, h1, h2, h3, -, -, -⟩ :=
    C1_printLines_yields_last_lines [] 3 emptyBuffer3 (fiveLines.map lineOf) 3
      (by decide) (by decide) (by decide)
  exact ⟨b', r, h1, h2, h3.trans (by decide)⟩

/-- C2 at capacity 3 after the first four of the five lines: three slots are
occupied. -/
theorem C2_occupied_slots_witness :
    ∃ b', storeLines emptyBuffer3 ((fiveLines.map lineOf).take 4) = .ok b' ∧ occupied b' = 3 :=
  C2_occupied_slots [] 3 emptyBuffer3 (fiveLines.map lineOf) 4 (by decide) (by decide)
    (by decide)

/-- C3 on the empty buffer of capacity 3. -/
theorem C3_storeLine_effect_witness :
    ∃ r, storeLine emptyBuffer3 (some (lineOf (letterLine 97))) = .ok r ∧
      readSlot r.pBuf.list 0 = .ok (some (lineOf (letterLine 97))) ∧
      r.pBuf.currLine = 1 ∧ r.pBuf.nEntries = 3 ∧ r.ppLn = none :=
  C3_storeLine_effect emptyBuffer3 (lineOf (letterLine 97)) (by decide)

/-- C4 on a full buffer of capacity 2: one line is freed. -/
theorem C4_storeLine_frame_witness :
    ∃ r, storeLine ⟨2, 1, [some (lineOf (letterLine 97)), some (lineOf (letterLine 98))]⟩
        (some (lineOf (letterLine 99))) = .ok r ∧ r.released.length = 1 := by
  obtain ⟨r, h1, -, -, h4, -⟩ :=
    C4_storeLine_frame ⟨2, 1, [some (lineOf (letterLine 97)), some (lineOf (letterLine 98))]⟩
      (lineOf (letterLine 99)) (by decide)
  exact ⟨r, h1, h4 (by decide)⟩

/-- C5 on the buffer that `create_lineBuffer (3)` returns. -/
theorem C5_cursor_valid_witness :
    0 ≤ emptyBuffer3.currLine ∧ emptyBuffer3.currLine < emptyBuffer3.nEntries :=
  (C5_cursor_valid 3 emptyBuffer3 (by decide)
    (Reachable.create [] emptyBuffer3 (by decide))).1

/-- C6 on the empty buffer of capacity 3. -/
theorem C6_printLines_read_only_witness :
    ∃ r, printLines 3 emptyBuffer3 = .ok r ∧ r.pBuf.list = emptyBuffer3.list ∧
      r.pBuf.currLine = emptyBuffer3.currLine ∧ r.pBuf.nEntries = emptyBuffer3.nEntries ∧
      ∃ r2, printLines 4 r.pBuf = .ok r2 ∧ r2.file = r.file ∧ r2.pBuf = emptyBuffer3 :=
  C6_printLines_read_only emptyBuffer3 3 4 (by decide) (by decide) (by decide)

/-- C7 at capacity 3. -/
theorem C7_fresh_buffer_prints_nothing_witness :
    ∃ r, printLines 3 emptyBuffer3 = .ok r ∧ r.file = [] :=
  C7_fresh_buffer_prints_nothing [] 3 emptyBuffer3 3 (by decide) (by decide) (by decide)

/-- C9 at capacity 3 with the lines a to e pending: all five are stored and the
buffer holds c, d, e, in that order. -/
theorem C9_drain_to_exhaustion_witness :
    ∃ s', main_iteration 6 ⟨1, false, true, 0⟩ fiveLinesPending = .ok (Control.running, s') ∧
      storeLines emptyBuffer3 (fiveLines.map lineOf) = .ok s'.pLnBuf ∧
      retained s'.pLnBuf =
        [lineOf (letterLine 99), lineOf (letterLine 100), lineOf (letterLine 101)] := by
  obtain ⟨s', h1, h2, -, -, h5⟩ :=
    C9_drain_to_exhaustion fiveLinesPending ⟨1, false, true, 0⟩ fiveLines [] 6
      (by decide) (by decide) (by simp [fiveLinesPending]) trivial (by decide) (by decide)
      rfl (by decide) (by decide) (by decide)
  exact ⟨s', h1, h2, (h5 (by decide)).trans (by decide)⟩

/-- C10 with both inputs ready and the five lines pending on the fifo. -/
theorem C10_quit_witness :
    ∃ s', main_iteration 0 ⟨2, true, true, 113⟩ fiveLinesPending =
        .ok (Control.terminated, s') ∧
      s'.stderr = [Output.fprintf msg_bye] ∧ s'.fFifo = fiveLinesPending.fFifo ∧
      s'.pLnBuf = emptyBuffer3 := by
  obtain ⟨s', h1, h2, h3, -, -, -, h7⟩ :=
    C10_quit fiveLinesPending ⟨2, true, true, 113⟩ 0 (by decide) rfl rfl
  exact ⟨s', h1, h2, h3, h7⟩

/-! ## The passes of the loop of `printLines` -/

/-- The loop of `printLines` writes what its passes write, in their order. -/
theorem printLines_loop_eq_trace (b : lineBuffer) :
    ∀ (fuel : Nat) (i : Int),
      printLines_loop b fuel i =
        match printLines_trace b fuel i with
        | .error f => .error f
        | .ok tr => .ok (tr.map Prod.snd).flatten := by
  intro fuel
  induction fuel with
  | zero => intro i; rfl
  | succ k ih =>
    intro i
    rw [printLines_loop, printLines_trace]
    cases hb : printLines_body b i with
    | error f => rfl
    | ok p =>
      obtain ⟨out, next⟩ := p
      by_cases hn : next = b.currLine
      · simp [hn]
      · simp only [ne_eq, hn, not_false_eq_true, if_true]
        rw [ih next]
        cases printLines_trace b k next with
        | error f => rfl
        | ok rest => simp

/-- With `r` passes left the loop stands at the slot `r` places before the end
of the window; the passes that follow are at the slots from there on. -/
theorem printLines_trace_nat (xs : List (Option line)) (c : Nat) (hc : c < xs.length) :
    ∀ (r fuel : Nat), 1 ≤ r → r ≤ xs.length → r ≤ fuel →
      printLines_trace ⟨(xs.length : Int), (c : Int), xs⟩ fuel
          (((c + (xs.length - r)) % xs.length : Nat) : Int) =
        .ok ((List.range' (xs.length - r) r).map (fun j =>
          ((((c + j) % xs.length : Nat) : Int),
            (slotText (xs.getD ((c + j) % xs.length) none)).toList))) := by
  intro r
  induction r with
  | zero => intro fuel h; omega
  | succ k ih =>
    intro fuel _ hk hf
    obtain ⟨fuel, rfl⟩ : ∃ f, fuel = f + 1 := ⟨fuel - 1, by omega⟩
    have hlt : (c + (xs.length - (k + 1))) % xs.length < xs.length := Nat.mod_lt _ (by omega)
    have hnext : ((c + (xs.length - (k + 1))) % xs.length + 1) % xs.length =
        (c + (xs.length - k)) % xs.length := by
      rw [Nat.mod_add_mod]
      congr 1
      omega
    rw [printLines_trace, printLines_body_nat xs c _ hlt, hnext]
    have e3 : xs.length - (k + 1) + 1 = xs.length - k := by omega
    by_cases hk0 : k = 0
    · subst hk0
      have e : (c + (xs.length - 0)) % xs.length = c := by
        simp [Nat.mod_eq_of_lt hc]
      simp only [e, ne_eq, not_true_eq_false, if_false]
      rfl
    · have hne : (((c + (xs.length - k)) % xs.length : Nat) : Int) ≠ (c : Int) := by
        rw [mod_of_lt_two_mul _ _ (by omega)]
        split <;> omega
      simp only [hne, ne_eq, not_false_eq_true, if_true]
      rw [ih fuel (by omega) (by omega) (by omega)]
      simp [List.range'_succ, e3]

/-- With fewer units of fuel than passes left, the loop runs out of fuel. -/
theorem printLines_trace_fuel (xs : List (Option line)) (c : Nat) (hc : c < xs.length) :
    ∀ (fuel r : Nat), r ≤ xs.length → fuel < r →
      printLines_trace ⟨(xs.length : Int), (c : Int), xs⟩ fuel
          (((c + (xs.length - r)) % xs.length : Nat) : Int) = .error .outOfFuel := by
  intro fuel
  induction fuel with
  | zero => intro r _ _; rfl
  | succ f ih =>
    intro r hr hf
    have hlt : (c + (xs.length - r)) % xs.length < xs.length := Nat.mod_lt _ (by omega)
    have hnext : ((c + (xs.length - r)) % xs.length + 1) % xs.length =
        (c + (xs.length - (r - 1))) % xs.length := by
      rw [Nat.mod_add_mod]
      congr 1
      omega
    have hne : (((c + (xs.length - (r - 1))) % xs.length : Nat) : Int) ≠ (c : Int) := by
      rw [mod_of_lt_two_mul _ _ (by omega)]
      split <;> omega
    rw [printLines_trace, printLines_body_nat xs c _ hlt, hnext]
    simp only [hne, ne_eq, not_false_eq_true, if_true]
    rw [ih (r - 1) (by omega) (by omega)]

/-- The slots in the order `cursor, ..., n - 1, 0, ..., cursor - 1`. -/
theorem circular_order (n c : Nat) (hc : c < n) :
    (List.range' 0 n).map (fun j => (c + j) % n) = List.range' c (n - c) ++ List.range c := by
  apply List.ext_getElem
  · simp; omega
  · intro j h1 h2
    simp only [List.length_map, List.length_range'] at h1
    simp only [List.getElem_map, List.getElem_range', Nat.zero_add, Nat.one_mul]
    by_cases hj : j < n - c
    · rw [List.getElem_append_left (by simpa using hj)]
      simp only [List.getElem_range', Nat.one_mul]
      exact Nat.mod_eq_of_lt (by omega)
    · rw [List.getElem_append_right (by simpa using hj)]
      simp only [List.length_range', List.getElem_range]
      rw [mod_of_lt_two_mul _ _ (by omega)]
      split <;> omega

/-- On a well-formed buffer, with one unit of fuel per slot, the passes of the
loop of `printLines` are at the slots `cursor, ..., n - 1, 0, ..., cursor - 1`. -/
theorem printLines_trace_wf (b : lineBuffer) (h : WellFormed b) (fuel : Nat)
    (hf : b.list.length ≤ fuel) :
    ∃ tr, printLines_trace b fuel b.currLine = .ok tr ∧
      tr.map Prod.fst =
        List.map (fun (j : Nat) => (j : Int))
          (List.range' b.currLine.toNat (b.list.length - b.currLine.toNat) ++
            List.range b.currLine.toNat) := by
  obtain ⟨c, hc, hb⟩ := h.exists_nat
  have ht := printLines_trace_nat b.list c hc b.list.length fuel (by omega) (by omega) hf
  simp only [Nat.sub_self, Nat.add_zero, Nat.mod_eq_of_lt hc] at ht
  have hcur : b.currLine = (c : Int) := by rw [hb]
  refine ⟨_, by rw [hcur]; rw [hb]; exact ht, ?_⟩
  rw [hcur, Int.toNat_ofNat, ← circular_order b.list.length c hc]
  simp [List.map_map, Function.comp_def]

/-- On a well-formed buffer, with less fuel than slots, `printLines` runs out of
fuel. -/
theorem printLines_fuel_wf (b : lineBuffer) (h : WellFormed b) (fuel : Nat)
    (hf : fuel < b.list.length) :
    printLines_trace b fuel b.currLine = .error .outOfFuel ∧
      printLines_loop b fuel b.currLine = .error .outOfFuel ∧
      printLines fuel b = .error .outOfFuel := by
  obtain ⟨c, hc, hb⟩ := h.exists_nat
  have ht := printLines_trace_fuel b.list c hc fuel b.list.length (by omega) hf
  simp only [Nat.sub_self, Nat.add_zero, Nat.mod_eq_of_lt hc] at ht
  have hcur : b.currLine = (c : Int) := by rw [hb]
  have ht' : printLines_trace b fuel b.currLine = .error .outOfFuel := by
    rw [hcur]; rw [hb]; exact ht
  have hl : printLines_loop b fuel b.currLine = .error .outOfFuel := by
    rw [printLines_loop_eq_trace, ht']
  exact ⟨ht', hl, by simp [printLines, hl]⟩

/-- C18: on a buffer with at least one slot and the cursor on one of them, the
loop of `printLines` ends after exactly `nEntries` passes of its body (with that
much fuel it returns, with less it does not), and the passes are at the slots
`cursor, cursor + 1, ..., nEntries - 1, 0, ..., cursor - 1`, each slot once. -/
theorem C18_printLines_visits_each_slot_once (b : lineBuffer) (h : WellFormed b) :
    (∀ fuel, b.nEntries.toNat ≤ fuel →
      ∃ tr, printLines_trace b fuel b.currLine = .ok tr ∧
        printLines fuel b = .ok ⟨b, (tr.map Prod.snd).flatten⟩ ∧
        tr.length = b.nEntries.toNat ∧
        tr.map Prod.fst =
          List.map (fun (j : Nat) => (j : Int))
            (List.range' b.currLine.toNat (b.nEntries.toNat - b.currLine.toNat) ++
              List.range b.currLine.toNat) ∧
        (tr.map Prod.fst).Perm
          (List.map (fun (j : Nat) => (j : Int)) (List.range b.nEntries.toNat))) ∧
      (∀ fuel, fuel < b.nEntries.toNat → printLines fuel b = .error .outOfFuel) := by
  have hn : b.nEntries.toNat = b.list.length := by
    have := h.2.1
    omega
  have hc : b.currLine.toNat < b.list.length := by
    have h1 := h.2.1
    have h2 := h.2.2.1
    have h3 := h.2.2.2
    omega
  rw [hn]
  refine ⟨?_, fun fuel hf => (printLines_fuel_wf b h fuel hf).2.2⟩
  intro fuel hf
  obtain ⟨tr, htr, hfst⟩ := printLines_trace_wf b h fuel hf
  have hlen : tr.length = b.list.length := by
    have := congrArg List.length hfst
    simp only [List.length_map, List.length_append, List.length_range', List.length_range] at this
    omega
  refine ⟨tr, htr, ?_, hlen, hfst, ?_⟩
  · have hl := printLines_loop_eq_trace b fuel b.currLine
    rw [htr] at hl
    simp [printLines, hl]
  · rw [hfst]
    apply List.Perm.map
    have hsplit : List.range b.list.length =
        List.range b.currLine.toNat ++
          List.range' b.currLine.toNat (b.list.length - b.currLine.toNat) := by
      rw [List.range_eq_range', List.range_eq_range']
      have e := List.range'_append_1 0 b.currLine.toNat (b.list.length - b.currLine.toNat)
      rw [Nat.zero_add] at e
      rw [e]
      congr 1
      omega
    rw [hsplit]
    exact List.perm_append_comm

/-- C20: with a capacity of at least 1, in every reachable state the divisor
`nEntries` is not zero and the cursor is the index of a slot, so `storeLine`
returns, `printLines` returns or, with too little fuel, is still running, and
every index at which `printLines` reads a slot lies in `[0, nEntries)`: the
faults for an index out of bounds and for a division by zero do not occur. -/
theorem C20_no_fault_in_reachable_states (capacity : Int) (b : lineBuffer)
    (hcap : 1 ≤ capacity) (h : Reachable capacity b) :
    b.nEntries ≠ 0 ∧ (b.list.length : Int) = b.nEntries ∧
      (0 ≤ b.currLine ∧ b.currLine < b.nEntries) ∧
      (∀ ppLn, ∃ r, storeLine b ppLn = .ok r) ∧
      (∀ fuel, (∃ r, printLines fuel b = .ok r) ∨ printLines fuel b = .error .outOfFuel) ∧
      (∀ fuel tr, printLines_trace b fuel b.currLine = .ok tr →
        ∀ p ∈ tr, 0 ≤ p.1 ∧ p.1 < b.nEntries) := by
  obtain ⟨hwf, -⟩ := reachable_wf capacity b hcap h
  have h1 := hwf.1
  refine ⟨by omega, hwf.2.1, ⟨hwf.2.2.1, hwf.2.2.2⟩, ?_, ?_, ?_⟩
  · intro ppLn
    cases ppLn with
    | none => exact ⟨_, rfl⟩
    | some l =>
      obtain ⟨r, hr, -⟩ := storeLine_wf b hwf l
      exact ⟨r, hr⟩
  · intro fuel
    by_cases hf : b.list.length ≤ fuel
    · exact Or.inl ⟨_, printLines_wf b hwf fuel hf⟩
    · exact Or.inr (printLines_fuel_wf b hwf fuel (by omega)).2.2
  · intro fuel tr htr p hp
    by_cases hf : b.list.length ≤ fuel
    · obtain ⟨tr', htr', hfst⟩ := printLines_trace_wf b hwf fuel hf
      rw [htr] at htr'
      cases htr'
      have hmem : p.1 ∈ tr.map Prod.fst := List.mem_map_of_mem _ hp
      rw [hfst] at hmem
      have h2 := hwf.2.1
      have h3 := hwf.2.2.1
      have h4 := hwf.2.2.2
      simp only [List.mem_map, List.mem_append, List.mem_range'_1, List.mem_range] at hmem
      obtain ⟨j, hj, hjp⟩ := hmem
      omega
    · rw [(printLines_fuel_wf b hwf fuel (by omega)).1] at htr
      cases htr

/-! ## The cursor after a run of stores -/

theorem storeLines_cursor_nat (ls : List line) :
    ∀ (xs : List (Option line)) (c n : Nat), xs.length = n → c < n →
      ∃ xs', storeLines ⟨(n : Int), (c : Int), xs⟩ ls =
          .ok ⟨(n : Int), (((c + ls.length) % n : Nat) : Int), xs'⟩ ∧ xs'.length = n := by
  induction ls with
  | nil =>
    intro xs c n hn hc
    exact ⟨xs, by simp [storeLines, Nat.mod_eq_of_lt hc], hn⟩
  | cons l ls ih =>
    intro xs c n hn hc
    subst hn
    have hlt : (c + 1) % xs.length < xs.length := Nat.mod_lt _ (by omega)
    obtain ⟨xs', hxs', hlen⟩ := ih (xs.set c (some l)) ((c + 1) % xs.length) xs.length
      (by simp) hlt
    refine ⟨xs', ?_, hlen⟩
    simp only [storeLines, storeLine_nat xs c l hc, hxs', List.length_cons]
    have e : ((c + 1) % xs.length + ls.length) % xs.length =
        (c + (ls.length + 1)) % xs.length := by
      rw [Nat.mod_add_mod]
      congr 1
      omega
    rw [e]

/-- The slot at the cursor is the first slot of the window. -/
theorem readSlot_cursor (b : lineBuffer) (h : WellFormed b) :
    readSlot b.list b.currLine = .ok ((window b).headD none) := by
  obtain ⟨c, hc, hb⟩ := h.exists_nat
  have hcur : b.currLine = (c : Int) := by rw [hb]
  have hw : window b = b.list.rotate c := by rw [hb]; simp [window]
  rw [hcur, readSlot_nat _ c hc, hw, List.rotate_eq_drop_append_take (by omega),
    List.drop_eq_getElem_cons hc, List.getD_eq_getElem _ _ hc]
  rfl

/-- C17: for every capacity of at least 1 and every `k`, after `k` stores of
non-null lines into a fresh buffer the cursor is `k mod capacity`; if
`k < capacity` the slots `0, ..., k - 1` hold the lines, the others are empty and
so is the slot at the cursor; if `k >= capacity` every slot is occupied and the
slot at the cursor holds the line stored as number `k - capacity + 1`, which is
the oldest line held. -/
theorem C17_cursor_at_oldest_or_empty (heap : Heap) (capacity : Int) (b : lineBuffer)
    (ls : List line) (hcap : 1 ≤ capacity)
    (hb : (create_lineBuffer heap capacity).pBuf = some b) :
    ∃ b', storeLines b ls = .ok b' ∧ b'.currLine = (ls.length : Int) % capacity ∧
      (ls.length < capacity.toNat →
        b'.list = ls.map some ++ List.replicate (capacity.toNat - ls.length) none ∧
        b'.currLine = (ls.length : Int) ∧ readSlot b'.list b'.currLine = .ok none) ∧
      (capacity.toNat ≤ ls.length →
        (∀ s ∈ b'.list, s ≠ none) ∧ b'.list.length = capacity.toNat ∧
        ls[ls.length - capacity.toNat]? ≠ none ∧
        readSlot b'.list b'.currLine = .ok ls[ls.length - capacity.toNat]? ∧
        (retained b').head? = ls[ls.length - capacity.toNat]?) := by
  obtain ⟨b', hb', hwf', hn', hlen', hwin'⟩ := storeLines_fresh heap capacity b ls hcap hb
  have hbeq := create_lineBuffer_some heap capacity b hb
  have hcapn : capacity = ((capacity.toNat : Nat) : Int) := by omega
  obtain ⟨xs', hxs', -⟩ := storeLines_cursor_nat ls (List.replicate capacity.toNat none) 0
    capacity.toNat (by simp) (by omega)
  have hcur : b'.currLine = (((0 + ls.length) % capacity.toNat : Nat) : Int) := by
    rw [hbeq] at hb'
    rw [← hcapn, Nat.cast_zero] at hxs'
    rw [hxs'] at hb'
    cases hb'
    rfl
  rw [Nat.zero_add] at hcur
  have hread := readSlot_cursor b' hwf'
  refine ⟨b', hb', ?_, ?_, ?_⟩
  · rw [hcur]
    conv_rhs => rw [hcapn]
    norm_cast
  · intro hk
    have hmod : ls.length % capacity.toNat = ls.length := Nat.mod_eq_of_lt hk
    rw [hmod] at hcur
    have hd : ls.length - capacity.toNat = 0 := by omega
    rw [hd, List.drop_zero] at hwin'
    have hrot : b'.list.rotate ls.length =
        List.replicate (capacity.toNat - ls.length) none ++ ls.map some := by
      rw [← hwin']
      simp [window, hcur]
    have hlist : b'.list = (b'.list.rotate ls.length).rotate (capacity.toNat - ls.length) := by
      rw [List.rotate_rotate]
      have e : ls.length + (capacity.toNat - ls.length) = b'.list.length := by omega
      rw [e, List.rotate_length]
    refine ⟨?_, hcur, ?_⟩
    · rw [hlist, hrot]
      have e := List.rotate_append_length_eq
        (List.replicate (capacity.toNat - ls.length) (none : Option line)) (ls.map some)
      simpa using e
    · rw [hread, hwin']
      obtain ⟨m, hm⟩ : ∃ m, capacity.toNat - ls.length = m + 1 :=
        ⟨capacity.toNat - ls.length - 1, by omega⟩
      rw [hm]
      rfl
  · intro hk
    have hd : capacity.toNat - ls.length = 0 := by omega
    rw [hd] at hwin'
    simp only [List.replicate_zero, List.nil_append] at hwin'
    have hidx : ls.length - capacity.toNat < ls.length := by omega
    have hget : ls[ls.length - capacity.toNat]? = some ls[ls.length - capacity.toNat] :=
      List.getElem?_eq_getElem hidx
    have hdrop := List.drop_eq_getElem_cons hidx
    refine ⟨?_, hlen', ?_, ?_, ?_⟩
    · intro s hs
      have hmem : s ∈ window b' := by
        unfold window
        exact List.mem_rotate.mpr hs
      rw [hwin'] at hmem
      obtain ⟨l, -, rfl⟩ := List.mem_map.mp hmem
      simp
    · rw [hget]
      simp
    · rw [hread, hwin', hdrop, hget]
      rfl
    · unfold retained
      rw [hwin']
      have e := reduceOption_fresh 0 (ls.drop (ls.length - capacity.toNat))
      simp only [List.replicate_zero, List.nil_append] at e
      rw [e, hdrop, hget]
      rfl

/-! ## The drain loop in general -/

/-- A call of `readLine` takes one outcome off the stream, returns a line only
if there was one, and writes nothing but `perror` messages, none with a line. -/
theorem readLine_shape (file : Stream) (heap : Heap) :
    (readLine file heap).file.pending = file.pending.tail ∧
      ((readLine file heap).ln ≠ none →
        file.pending ≠ [] ∧ (readLine file heap).err = []) ∧
      (∀ o ∈ (readLine file heap).err, ∃ t, o = Output.perror t) := by
  obtain ⟨pending, err⟩ := file
  match pending with
  | [] => simp [readLine, getline, EAGAIN, EWOULDBLOCK]
  | GetlineResult.fail e :: rest =>
    by_cases h : e = EAGAIN ∨ e = EWOULDBLOCK <;> simp [readLine, getline, h]
  | GetlineResult.line bytes :: rest =>
    by_cases hb : bytes.length = 0
    · simp [readLine, getline, hb]
    · match heap with
      | [] => simp [readLine, getline, hb, calloc, sizeof_line, SIZE_MAX]
      | a :: h =>
        cases a <;> simp [readLine, getline, hb, calloc, sizeof_line, SIZE_MAX]

/-- With more fuel than outcomes pending, the drain loop returns on a
well-formed buffer; what it does to the buffer, the stream and the allocator
does not depend on what is on `stderr`, to which it only adds `perror` messages. -/
theorem main_drain_total :
    ∀ (fuel : Nat) (b : lineBuffer) (file : Stream) (heap : Heap), WellFormed b →
      file.pending.length < fuel →
      ∃ b' file' heap' errs, WellFormed b' ∧ b'.nEntries = b.nEntries ∧
        b'.list.length = b.list.length ∧ (∀ o ∈ errs, ∃ t, o = Output.perror t) ∧
        ∀ e, main_drain fuel ⟨b, file, heap, e⟩ = .ok ⟨b', file', heap', e ++ errs⟩ := by
  intro fuel
  induction fuel with
  | zero => intro b file heap _ hf; omega
  | succ k ih =>
    intro b file heap hwf hf
    obtain ⟨hpend, hsome, hperr⟩ := readLine_shape file heap
    cases hln : (readLine file heap).ln with
    | none =>
      refine ⟨b, (readLine file heap).file, (readLine file heap).heap,
        (readLine file heap).err, hwf, rfl, rfl, hperr, ?_⟩
      intro e
      simp [main_drain, hln]
    | some ln =>
      obtain ⟨hne, herr⟩ := hsome (by rw [hln]; simp)
      obtain ⟨st, hst, hwf1, hn1, hlen1, -⟩ := storeLine_wf b hwf ln
      have hlt : (readLine file heap).file.pending.length < k := by
        rw [hpend, List.length_tail]
        have : 0 < file.pending.length := List.length_pos.mpr hne
        omega
      obtain ⟨b', file', heap', errs, hwf', hn', hlen', hperr', hrun⟩ :=
        ih st.pBuf (readLine file heap).file (readLine file heap).heap hwf1 hlt
      refine ⟨b', file', heap', errs, hwf', by omega, by omega, hperr', ?_⟩
      intro e
      have := hrun e
      simp [main_drain, hln, hst, herr, this]

/-! ## The blocks of one pass of the loop -/

theorem filterMap_slotText_eq (xs : List (Option line)) :
    xs.filterMap slotText = xs.reduceOption.filterMap lineText := by
  induction xs with
  | nil => rfl
  | cons a t ih =>
    cases a with
    | none => simpa [slotText, List.reduceOption_cons_of_none] using ih
    | some l =>
      rw [List.reduceOption_cons_of_some]
      cases hl : lineText l <;> simp [List.filterMap_cons, slotText, hl, ih]

/-- The command block when the command is not the quit command: the loop goes
on, and only the `'p'` command writes, the dump of the buffer. -/
theorem main_stdin_eq (fuel : Nat) (w : Wakeup) (b : lineBuffer) (file : Stream) (heap : Heap)
    (e : List Output) (hwf : WellFormed b) (hf : b.list.length ≤ fuel)
    (hq : w.stdinSet = true → char_of_int w.getcharRet ≠ 113) :
    main_stdin fuel w ⟨b, file, heap, e⟩ =
      .ok (Control.running, ⟨b, file, heap,
        e ++ (if w.stdinSet = true ∧ char_of_int w.getcharRet = 112 then dump b else [])⟩) := by
  unfold main_stdin
  by_cases hs : w.stdinSet = true
  · have hq' := hq hs
    by_cases hp : char_of_int w.getcharRet = 112
    · simp [hs, hq', hp, printLines_wf b hwf fuel hf, dump, retained, filterMap_slotText_eq]
    · simp [hs, hq', hp]
  · simp [hs]

theorem storeLines_append (xs ys : List line) :
    ∀ b : lineBuffer, storeLines b (xs ++ ys) =
      match storeLines b xs with
      | .error f => .error f
      | .ok b1 => storeLines b1 ys := by
  induction xs with
  | nil => intro b; rfl
  | cons l ls ih =>
    intro b
    simp only [List.cons_append, storeLines]
    cases storeLine b (some l) with
    | error f => rfl
    | ok r => exact ih r.pBuf

/-- One pass of the loop for data alone stores the complete lines pending. -/
theorem main_iteration_stores (b : lineBuffer) (ferr : Bool) (heap : Heap) (e : List Output)
    (w : Wakeup) (lines : List (List Byte)) (fuel : Nat) (hwf : WellFormed b)
    (hlines : ∀ bytes ∈ lines, completeLine bytes)
    (hheap : ∀ a ∈ heap.take lines.length, a = true) (hw : dataOnly w)
    (hfuel : lines.length < fuel) :
    ∃ b' ferr', storeLines b (lines.map lineOf) = .ok b' ∧ WellFormed b' ∧
      main_iteration fuel w ⟨b, ⟨lines.map GetlineResult.line, ferr⟩, heap, e⟩ =
        .ok (Control.running, ⟨b', ⟨[], ferr'⟩, heap.drop lines.length, e⟩) := by
  obtain ⟨b', ferr', hb', hd⟩ := main_drain_lines lines
    ⟨b, ⟨lines.map GetlineResult.line, ferr⟩, heap, e⟩ [] fuel hwf
    (fun bytes hb => completeLine_ne_nil bytes (hlines bytes hb)) (by simp) trivial hheap hfuel
  obtain ⟨b2, hb2, hwf2, -⟩ := storeLines_wf (lines.map lineOf) b hwf
  have hb'' : storeLines b (lines.map lineOf) = .ok b' := hb'
  rw [hb''] at hb2
  cases hb2
  obtain ⟨hsel, hcmd, hdata⟩ := hw
  have hns : ¬ w.selectRet < 1 := by omega
  refine ⟨b', ferr', hb'', hwf2, ?_⟩
  simp only [List.tail_nil] at hd
  simp [main_iteration, hns, main_stdin, hcmd, main_fifo, hdata, hd]

/-! ## More claims on the loop of `main` -/

/-- C11, as stated, fails: once the line `a`, NUL, `b`, newline has arrived on
the fifo and is held, the command `'p'` writes the single byte `a` to `stderr`,
not the four bytes of the line. -/
theorem C11_dump_cuts_line_at_nul :
    ∃ s', main_loop 2 [⟨[GetlineResult.line nulLine], ⟨1, false, true, 0⟩⟩,
          ⟨[], ⟨1, true, false, 112⟩⟩] ⟨⟨1, 0, [none]⟩, ⟨[], false⟩, [], []⟩ =
        .ok (Control.running, s') ∧
      retained s'.pLnBuf = [lineOf nulLine] ∧ (lineOf nulLine).sLength = 4 ∧
      s'.stderr = [Output.fprintf [97]] ∧ s'.stderr ≠ [Output.fprintf nulLine] :=
  ⟨_, rfl, rfl, rfl, rfl, by decide⟩

/-- C11, amended: in every pass of the loop in which `select` succeeded, the
command input is ready and `getchar` delivers `'p'`, the command writes to
`stderr`, for each line held, oldest first, the bytes of the line that stand
before its first NUL byte (nothing for a line whose `szLine` is `NULL`), and
nothing else, changes neither the buffer nor the fifo, and leaves the loop
RUNNING; the pass as a whole is that, followed by the drain of the fifo if the
fifo is ready, which writes only `perror` messages. For lines without a NUL
byte the bytes written are the concatenation of the lines. -/
theorem C11_dump_command (s : Loop) (w : Wakeup) (fuel : Nat) (hwf : WellFormed s.pLnBuf)
    (hfuel : s.pLnBuf.list.length ≤ fuel) (hsel : 1 ≤ w.selectRet)
    (hcmd : w.stdinSet = true) (hp : w.getcharRet = 112) :
    ∃ s1, main_stdin fuel w s = .ok (Control.running, s1) ∧
      s1.stderr = s.stderr ++ ((retained s.pLnBuf).filterMap lineText).map Output.fprintf ∧
      s1.pLnBuf = s.pLnBuf ∧ s1.fFifo = s.fFifo ∧ s1.heap = s.heap ∧
      (w.fifoSet = false → main_iteration fuel w s = .ok (Control.running, s1)) ∧
      (w.fifoSet = true → s.fFifo.pending.length < fuel →
        ∃ s2 errs, main_iteration fuel w s = .ok (Control.running, s2) ∧
          main_drain fuel s1 = .ok s2 ∧ s2.stderr = s1.stderr ++ errs ∧
          ∀ o ∈ errs, ∃ t, o = Output.perror t) ∧
      ((∀ l ∈ retained s.pLnBuf, ∃ t, l.szLine = some t ∧ (0 : Byte) ∉ t) →
        ((retained s.pLnBuf).filterMap lineText).flatten =
          ((retained s.pLnBuf).map (fun l => l.szLine.getD [])).flatten) := by
  obtain ⟨b, file, heap, e⟩ := s
  have hc : char_of_int w.getcharRet = 112 := by rw [hp]; decide
  have hq : w.stdinSet = true → char_of_int w.getcharRet ≠ 113 := by
    intro _; rw [hc]; decide
  have hst := main_stdin_eq fuel w b file heap e hwf hfuel hq
  simp only [hcmd, hc, and_self, if_true] at hst
  have hns : ¬ w.selectRet < 1 := by omega
  refine ⟨⟨b, file, heap, e ++ dump b⟩, hst, rfl, rfl, rfl, rfl, ?_, ?_, ?_⟩
  · intro hfifo
    simp [main_iteration, hns, hst, main_fifo, hfifo]
  · intro hfifo hpend
    obtain ⟨b', file', heap', errs, -, -, -, hperr, hrun⟩ :=
      main_drain_total fuel b file heap hwf hpend
    refine ⟨⟨b', file', heap', (e ++ dump b) ++ errs⟩, errs, ?_, hrun _, rfl, hperr⟩
    simp [main_iteration, hns, hst, main_fifo, hfifo, hrun]
  · intro hall
    congr 1
    generalize retained b = ls at hall
    induction ls with
    | nil => rfl
    | cons a t ih =>
      obtain ⟨x, hx, h0⟩ := hall a (List.mem_cons_self _ _)
      have iht := ih (fun l hl => hall l (List.mem_cons_of_mem _ hl))
      simp [List.filterMap_cons, lineText, hx, cstr_eq_self x h0, iht]

/-- C15: a pass of the loop that starts in RUNNING returns (on a well-formed
buffer, with fuel for the dump and the drain), and it leaves the loop TERMINATED
if and only if `select` returned less than 1 or the command input was ready and
the character read was `'q'`; in every other case the loop is still RUNNING. -/
theorem C15_transitions_out_of_running (s : Loop) (w : Wakeup) (fuel : Nat)
    (hwf : WellFormed s.pLnBuf) (hfuel : s.pLnBuf.list.length ≤ fuel)
    (hfuel2 : s.fFifo.pending.length < fuel) :
    ∃ c s', main_iteration fuel w s = .ok (c, s') ∧
      (c = Control.terminated ↔
        (w.selectRet < 1 ∨ (w.stdinSet = true ∧ char_of_int w.getcharRet = 113))) ∧
      (¬ (w.selectRet < 1 ∨ (w.stdinSet = true ∧ char_of_int w.getcharRet = 113)) →
        c = Control.running) := by
  obtain ⟨b, file, heap, e⟩ := s
  by_cases hsel : w.selectRet < 1
  · exact ⟨Control.terminated,
      ⟨b, file, heap, e ++ [Output.fprintf msg_select, Output.perror Tag.select]⟩,
      by simp [main_iteration, hsel], by simp [hsel], by simp [hsel]⟩
  · by_cases hq : w.stdinSet = true ∧ char_of_int w.getcharRet = 113
    · exact ⟨Control.terminated, ⟨b, file, heap, e ++ [Output.fprintf msg_bye]⟩,
        by simp [main_iteration, hsel, main_stdin, hq.1, hq.2], by simp [hq], by simp [hq]⟩
    · have hq' : w.stdinSet = true → char_of_int w.getcharRet ≠ 113 :=
        fun h1 h2 => hq ⟨h1, h2⟩
      have hst := main_stdin_eq fuel w b file heap e hwf hfuel hq'
      by_cases hfifo : w.fifoSet = true
      · obtain ⟨b', file', heap', errs, -, -, -, -, hrun⟩ :=
          main_drain_total fuel b file heap hwf hfuel2
        exact ⟨Control.running,
          ⟨b', file', heap', (e ++ (if w.stdinSet = true ∧ char_of_int w.getcharRet = 112
            then dump b else [])) ++ errs⟩,
          by simp [main_iteration, hsel, hst, main_fifo, hfifo, hrun],
          by simp [hsel, hq], fun _ => rfl⟩
      · exact ⟨Control.running,
          ⟨b, file, heap, e ++ (if w.stdinSet = true ∧ char_of_int w.getcharRet = 112
            then dump b else [])⟩,
          by simp [main_iteration, hsel, hst, main_fifo, hfifo],
          by simp [hsel, hq], fun _ => rfl⟩

/-- C16, as stated, fails: with the line `"a\n"` pending and both inputs ready,
the command `'p'` and then the drain write nothing, the drain and then `'p'`
write the line; with `'q'` the command and then the drain leave the buffer
empty, the drain and then `'q'` leave the line in it. -/
theorem C16_order_of_command_and_drain_matters :
    (∃ s1 s2, main_iteration 3 ⟨1, true, true, 112⟩ oneLinePending =
          .ok (Control.running, s1) ∧
        drain_then_command 3 ⟨1, true, true, 112⟩ oneLinePending =
          .ok (Control.running, s2) ∧
        s1.stderr = [] ∧ s2.stderr = [Output.fprintf [97, 10]]) ∧
      (∃ s1 s2, main_iteration 3 ⟨1, true, true, 113⟩ oneLinePending =
          .ok (Control.terminated, s1) ∧
        drain_then_command 3 ⟨1, true, true, 113⟩ oneLinePending =
          .ok (Control.terminated, s2) ∧
        retained s1.pLnBuf = [] ∧ retained s2.pLnBuf = [lineOf [97, 10]]) :=
  ⟨⟨_, _, rfl, rfl, rfl, rfl⟩, ⟨_, _, rfl, rfl, rfl, rfl⟩⟩

/-- C16, amended: in a pass in which `select` succeeded and the command is not
`'q'`, the command and then the drain (the order of the source) and the drain
and then the command both leave the loop RUNNING with the same buffer, the same
fifo and the same allocator; what is on `stderr` is the same too unless the
command is `'p'`. -/
theorem C16_order_amended (s : Loop) (w : Wakeup) (fuel : Nat) (hwf : WellFormed s.pLnBuf)
    (hfuel : s.pLnBuf.list.length ≤ fuel) (hfuel2 : s.fFifo.pending.length < fuel)
    (hsel : 1 ≤ w.selectRet) (hq : w.stdinSet = true → char_of_int w.getcharRet ≠ 113) :
    ∃ s1 s2, main_iteration fuel w s = .ok (Control.running, s1) ∧
      drain_then_command fuel w s = .ok (Control.running, s2) ∧
      s1.pLnBuf = s2.pLnBuf ∧ s1.fFifo = s2.fFifo ∧ s1.heap = s2.heap ∧
      ((w.stdinSet = true → char_of_int w.getcharRet ≠ 112) → s1.stderr = s2.stderr) := by
  obtain ⟨b, file, heap, e⟩ := s
  have hns : ¬ w.selectRet < 1 := by omega
  have hst := main_stdin_eq fuel w b file heap e hwf hfuel hq
  by_cases hfifo : w.fifoSet = true
  · obtain ⟨b', file', heap', errs, hwf', -, hlen', -, hrun⟩ :=
      main_drain_total fuel b file heap hwf hfuel2
    have hst2 := main_stdin_eq fuel w b' file' heap' (e ++ errs) hwf'
      (by rw [hlen']; exact hfuel) hq
    refine ⟨⟨b', file', heap', (e ++ (if w.stdinSet = true ∧ char_of_int w.getcharRet = 112
        then dump b else [])) ++ errs⟩,
      ⟨b', file', heap', (e ++ errs) ++ (if w.stdinSet = true ∧ char_of_int w.getcharRet = 112
        then dump b' else [])⟩,
      by simp [main_iteration, hns, hst, main_fifo, hfifo, hrun],
      by simp [drain_then_command, main_fifo, hfifo, hrun, hst2], rfl, rfl, rfl, ?_⟩
    intro hp
    have hnp : ¬ (w.stdinSet = true ∧ char_of_int w.getcharRet = 112) :=
      fun h => hp h.1 h.2
    simp [hnp]
  · refine ⟨⟨b, file, heap, e ++ (if w.stdinSet = true ∧ char_of_int w.getcharRet = 112
        then dump b else [])⟩,
      ⟨b, file, heap, e ++ (if w.stdinSet = true ∧ char_of_int w.getcharRet = 112
        then dump b else [])⟩,
      by simp [main_iteration, hns, hst, main_fifo, hfifo],
      by simp [drain_then_command, main_fifo, hfifo, hst], rfl, rfl, rfl, fun _ => rfl⟩

/-- C19: for every buffer with at least one slot and a valid cursor, and all
lists of complete lines `xs` and `ys`, the lines `xs` arriving for one wakeup
and `ys` for a later one, with no command, leave the same slots and the same
cursor as `xs ++ ys` arriving for a single wakeup (each line record being
allocated): in both cases the buffer is the one after storing `xs ++ ys`. -/
theorem C19_split_across_notifications (s : Loop) (xs ys : List (List Byte))
    (w1 w2 w : Wakeup) (fuel : Nat) (hwf : WellFormed s.pLnBuf)
    (hxs : ∀ bytes ∈ xs, completeLine bytes) (hys : ∀ bytes ∈ ys, completeLine bytes)
    (hpend : s.fFifo.pending = [])
    (hheap : ∀ a ∈ s.heap.take (xs.length + ys.length), a = true)
    (hw1 : dataOnly w1) (hw2 : dataOnly w2) (hw : dataOnly w)
    (hfuel : xs.length + ys.length < fuel) :
    ∃ s2 s3,
      main_loop fuel [⟨xs.map GetlineResult.line, w1⟩, ⟨ys.map GetlineResult.line, w2⟩] s =
        .ok (Control.running, s2) ∧
      main_loop fuel [⟨(xs ++ ys).map GetlineResult.line, w⟩] s = .ok (Control.running, s3) ∧
      s2.pLnBuf.list = s3.pLnBuf.list ∧ s2.pLnBuf.currLine = s3.pLnBuf.currLine ∧
      storeLines s.pLnBuf ((xs ++ ys).map lineOf) = .ok s3.pLnBuf := by
  obtain ⟨b, file, heap, e⟩ := s
  obtain ⟨pending, ferr⟩ := file
  simp only at hpend
  subst hpend
  have hsplit : List.take (xs.length + ys.length) heap =
      List.take xs.length heap ++ List.take ys.length (List.drop xs.length heap) :=
    List.take_add _ _ _
  have hh1 : ∀ a ∈ heap.take xs.length, a = true := by
    intro a ha
    apply hheap
    rw [hsplit]
    exact List.mem_append_left _ ha
  have hh2 : ∀ a ∈ (heap.drop xs.length).take ys.length, a = true := by
    intro a ha
    apply hheap
    rw [hsplit]
    exact List.mem_append_right _ ha
  obtain ⟨b1, ferr1, hb1, hwf1, hit1⟩ :=
    main_iteration_stores b ferr heap e w1 xs fuel hwf hxs hh1 hw1 (by omega)
  obtain ⟨b2, ferr2, hb2, -, hit2⟩ :=
    main_iteration_stores b1 ferr1 (heap.drop xs.length) e w2 ys fuel hwf1 hys hh2 hw2
      (by omega)
  have hxy : ∀ bytes ∈ xs ++ ys, completeLine bytes := by
    intro bytes hb
    rcases List.mem_append.mp hb with h | h
    · exact hxs bytes h
    · exact hys bytes h
  obtain ⟨b3, ferr3, hb3, -, hit3⟩ :=
    main_iteration_stores b ferr heap e w (xs ++ ys) fuel hwf hxy
      (by simpa using hheap) (by simpa using hw) (by simpa using hfuel)
  have hb23 : b2 = b3 := by
    have happ := storeLines_append (xs.map lineOf) (ys.map lineOf) b
    rw [hb1] at happ
    simp only [] at happ
    rw [hb2, ← List.map_append, hb3] at happ
    exact (Except.ok.inj happ).symm
  subst hb23
  refine ⟨⟨b2, ⟨[], ferr2⟩, (heap.drop xs.length).drop ys.length, e⟩,
    ⟨b2, ⟨[], ferr3⟩, heap.drop (xs ++ ys).length, e⟩, ?_, ?_, rfl, rfl, hb3⟩
  · simp [main_loop, hit1, hit2]
  · simp only [main_loop, List.nil_append, hit3]

/-! ## Claims on `main` as a whole -/

/-- Once `main` has entered its loop, whatever ends the loop, the status it
returns is `EXIT_SUCCESS`. -/
theorem main_status_after_loop (setup : Setup) (heap : Heap) (events : List Event)
    (fuel : Nat) (b : lineBuffer) (x : Exit)
    (hb : (create_lineBuffer heap LINE_BUFFER_SIZE).pBuf = some b)
    (hfifo : main_fifo_setup setup = none) (hopen : ¬ setup.openRet < 0)
    (hfd : setup.fdopenOk = true) (hx : main setup heap events fuel = .ok (some x)) :
    x.returnStatus = EXIT_SUCCESS := by
  unfold main at hx
  simp only [hb, hfifo, hopen, hfd, if_false, not_true_eq_false] at hx
  split at hx
  · cases hx
  · cases hx
  · unfold main_END at hx
    split at hx
    · cases hx
    · simp only [Except.map, Except.ok.injEq, Option.some.injEq] at hx
      rw [← hx]

/-- The loop of `destroy_linebuffer` returns when the array has `n` slots. -/
theorem destroy_loop_nat (n : Nat) :
    ∀ (fuel i : Nat) (xs : List (Option line)), xs.length = n → i ≤ n → n - i ≤ fuel →
      ∃ r, destroy_loop (n : Int) fuel (i : Int) xs = .ok r := by
  intro fuel
  induction fuel with
  | zero =>
    intro i xs _ hi hf
    have hin : ¬ ((i : Int) < (n : Int)) := by omega
    exact ⟨(xs, []), by rw [destroy_loop]; simp only [hin, if_false]⟩
  | succ f ih =>
    intro i xs hlen hi hf
    by_cases hin : (i : Int) < (n : Int)
    · have hi' : i < xs.length := by omega
      have hset : ∀ v, (xs.set i v).length = n := by intro v; simp [hlen]
      rw [destroy_loop]
      simp only [hin, if_true, readSlot_nat xs i hi', writeSlot_nat xs i _ hi']
      have hcast : (i : Int) + 1 = ((i + 1 : Nat) : Int) := by push_cast; rfl
      rw [hcast]
      obtain ⟨r, hr⟩ := ih (i + 1)
        (xs.set i (if xs.getD i none ≠ none then freeLine (xs.getD i none)
          else (xs.getD i none, [])).1) (hset _) (by omega) (by omega)
      rw [hr]
      exact ⟨_, rfl⟩
    · exact ⟨(xs, []), by rw [destroy_loop]; simp only [hin, if_false]⟩

/-- From the label `END` on, `main` returns the status it has, given a buffer
that is well-formed (or none). -/
theorem main_END_wf (status : Int) (b : lineBuffer) (err : List Output)
    (out : List (List Byte)) (hwf : WellFormed b) :
    main_END status (some b) err out = .ok ⟨status, err ++ [Output.fprintf msg_exiting], out⟩ := by
  obtain ⟨c, hc, hb⟩ := hwf.exists_nat
  obtain ⟨r, hr⟩ := destroy_loop_nat b.list.length b.list.length 0 b.list rfl (by omega)
    (by omega)
  have hn : b.nEntries = (b.list.length : Int) := by rw [hb]
  have hd : destroy_loop b.nEntries b.nEntries.toNat 0 b.list = .ok r := by
    rw [hn, Int.toNat_ofNat]
    exact hr
  simp [main_END, destroy_linebuffer, hd]

/-- C12: after a startup that succeeded, `main` returns `EXIT_SUCCESS` when the
loop is left by the quit command, and it returns `EXIT_SUCCESS` as well, not
`EXIT_FAILURE`, when the loop is left because `select` returned -1. -/
theorem C12_exit_status_after_select_failure :
    main setupOk [] [⟨[], ⟨1, true, false, 113⟩⟩] 40 =
        .ok (some ⟨EXIT_SUCCESS,
          [Output.fprintf msg_version, Output.fprintf msg_banner, Output.fprintf msg_bye,
            Output.fprintf msg_exiting], [msg_fifo_name]⟩) ∧
      main setupOk [] [⟨[], ⟨-1, false, false, 0⟩⟩] 40 =
        .ok (some ⟨EXIT_SUCCESS,
          [Output.fprintf msg_version, Output.fprintf msg_banner, Output.fprintf msg_select,
            Output.perror Tag.select, Output.fprintf msg_exiting], [msg_fifo_name]⟩) ∧
      EXIT_SUCCESS ≠ EXIT_FAILURE := by
  have hcreate : create_lineBuffer [] LINE_BUFFER_SIZE = ⟨some loopStart.pLnBuf, [], []⟩ := rfl
  have hwf : WellFormed loopStart.pLnBuf := by decide
  have hsetup : main_fifo_setup setupOk = none := rfl
  have hopen : ¬ setupOk.openRet < 0 := by decide
  have hfd : setupOk.fdopenOk = true := rfl
  refine ⟨?_, ?_, by decide⟩
  · have hq : char_of_int (113 : Int) = 113 := by decide
    simp [main, hcreate, hsetup, hopen, hfd, main_loop, main_iteration, main_stdin, hq,
      main_END_wf _ _ _ _ hwf, Except.map]
  · simp [main, hcreate, hsetup, hopen, hfd, main_loop, main_iteration,
      main_END_wf _ _ _ _ hwf, Except.map]

theorem readLine_produces_lineOf (file : Stream) (heap : Heap) (l : line)
    (h : (readLine file heap).ln = some l) : ∃ bytes, bytes ≠ [] ∧ l = lineOf bytes := by
  obtain ⟨pending, err⟩ := file
  match pending with
  | [] => simp [readLine, getline, EAGAIN, EWOULDBLOCK] at h
  | GetlineResult.fail e :: rest =>
    by_cases he : e = EAGAIN ∨ e = EWOULDBLOCK <;> simp [readLine, getline, he] at h
  | GetlineResult.line bytes :: rest =>
    by_cases hb : bytes.length = 0
    · simp [readLine, getline, hb] at h
    · have hne : bytes ≠ [] := fun h0 => hb (by rw [h0]; rfl)
      match heap with
      | [] =>
        simp [readLine, getline, hb, calloc, sizeof_line, SIZE_MAX] at h
        exact ⟨bytes, hne, by rw [← h]; rfl⟩
      | a :: rest2 =>
        cases a
        · simp [readLine, getline, hb, calloc, sizeof_line, SIZE_MAX] at h
        · simp [readLine, getline, hb, calloc, sizeof_line, SIZE_MAX] at h
          exact ⟨bytes, hne, by rw [← h]; rfl⟩

/-- C13, as stated, fails: `readLine` makes a line of length 4 of the bytes
`a`, NUL, `b`, newline, and `printLines` writes one byte for it, the `a`. -/
theorem C13_nul_byte_cuts_the_dump :
    (readLine ⟨[GetlineResult.line nulLine], false⟩ []).ln = some (lineOf nulLine) ∧
      (lineOf nulLine).sLength = 4 ∧
      printLines 1 ⟨1, 0, [some (lineOf nulLine)]⟩ =
        .ok ⟨⟨1, 0, [some (lineOf nulLine)]⟩, [[97]]⟩ ∧
      ([97] : List Byte) ≠ nulLine :=
  ⟨rfl, rfl, rfl, by decide⟩

/-- C13, amended: for every buffer with at least one slot and a valid cursor
whose lines were made by `readLine`, `printLines` writes for each line held, in
order, the bytes of the line that stand before its first NUL byte; for a line
without a NUL byte these are all its `sLength` bytes, unchanged. -/
theorem C13_dump_up_to_first_nul (b : lineBuffer) (fuel : Nat) (hwf : WellFormed b)
    (hf : b.list.length ≤ fuel)
    (hread : ∀ l ∈ retained b, ∃ bytes, bytes ≠ [] ∧ l = lineOf bytes) :
    ∃ r, printLines fuel b = .ok r ∧
      r.file = (retained b).map
        (fun l => (l.szLine.getD []).takeWhile (fun x => x ≠ 0)) ∧
      (∀ l ∈ retained b, (0 : Byte) ∉ l.szLine.getD [] →
        (l.szLine.getD []).takeWhile (fun x => x ≠ 0) = l.szLine.getD [] ∧
          (l.szLine.getD []).length = l.sLength) := by
  refine ⟨_, printLines_wf b hwf fuel hf, ?_, ?_⟩
  · show (window b).filterMap slotText = _
    rw [filterMap_slotText_eq]
    change (retained b).filterMap lineText = _
    generalize retained b = ls at hread
    induction ls with
    | nil => rfl
    | cons a t ih =>
      obtain ⟨bytes, -, hx⟩ := hread a (List.mem_cons_self _ _)
      have iht := ih (fun l hl => hread l (List.mem_cons_of_mem _ hl))
      subst hx
      simp [List.filterMap_cons, lineText, lineOf, cstr, iht]
  · intro l hl h0
    obtain ⟨bytes, -, hx⟩ := hread l hl
    subst hx
    exact ⟨cstr_eq_self _ h0, rfl⟩

/-- A wakeup for data alone with complete lines arriving and then a wakeup for
the command `'p'` alone: the lines are stored and the buffer is dumped. -/
theorem main_loop_store_then_dump (b : lineBuffer) (ferr : Bool) (heap : Heap)
    (e : List Output) (w1 wp : Wakeup) (lines : List (List Byte)) (fuel : Nat)
    (hwf : WellFormed b) (hlines : ∀ bytes ∈ lines, completeLine bytes)
    (hheap : ∀ a ∈ heap.take lines.length, a = true) (hw1 : dataOnly w1)
    (hsel : 1 ≤ wp.selectRet) (hcmd : wp.stdinSet = true) (hp : wp.getcharRet = 112)
    (hnf : wp.fifoSet = false) (hfuel : lines.length < fuel) (hfuel2 : b.list.length ≤ fuel) :
    ∃ b' ferr', storeLines b (lines.map lineOf) = .ok b' ∧
      main_loop fuel [⟨lines.map GetlineResult.line, w1⟩, ⟨[], wp⟩] ⟨b, ⟨[], ferr⟩, heap, e⟩ =
        .ok (Control.running, ⟨b', ⟨[], ferr'⟩, heap.drop lines.length, e ++ dump b'⟩) := by
  obtain ⟨b', ferr', hb', hwf', hit⟩ :=
    main_iteration_stores b ferr heap e w1 lines fuel hwf hlines hheap hw1 hfuel
  have hlen' : b'.list.length = b.list.length := by
    obtain ⟨b2, hb2, -, -, hl, -⟩ := storeLines_wf (lines.map lineOf) b hwf
    rw [hb'] at hb2
    cases hb2
    exact hl
  have hc : char_of_int wp.getcharRet = 112 := by rw [hp]; decide
  have hq : wp.stdinSet = true → char_of_int wp.getcharRet ≠ 113 := by
    intro _; rw [hc]; decide
  have hst := main_stdin_eq fuel wp b' ⟨[], ferr'⟩ (heap.drop lines.length) e hwf'
    (by omega) hq
  simp only [hcmd, hc, and_self, if_true] at hst
  have hns : ¬ wp.selectRet < 1 := by omega
  refine ⟨b', ferr', hb', ?_⟩
  simp only [main_loop, List.nil_append, hit, List.append_nil]
  simp [main_iteration, hns, hst, main_fifo, hnf]

/-- C14: the banner says that `'p'` prints the last 10 lines, but the buffer
that `main` creates has `LINE_BUFFER_SIZE = 40` slots: after the eleven lines
`"a\n"` to `"k\n"` have arrived, the command `'p'` writes all eleven of them,
the first one included. -/
theorem C14_dump_writes_more_than_ten_lines :
    (create_lineBuffer [] LINE_BUFFER_SIZE).pBuf = some loopStart.pLnBuf ∧
      ∃ s', main_loop 41 [⟨elevenLines.map GetlineResult.line, ⟨1, false, true, 0⟩⟩,
          ⟨[], ⟨1, true, false, 112⟩⟩] loopStart = .ok (Control.running, s') ∧
        s'.stderr = loopStart.stderr ++ elevenLines.map Output.fprintf ∧
        (elevenLines.map Output.fprintf).length = 11 := by
  have hcreate : (create_lineBuffer [] LINE_BUFFER_SIZE).pBuf = some loopStart.pLnBuf := rfl
  refine ⟨hcreate, ?_⟩
  have hwf : WellFormed loopStart.pLnBuf := by decide
  obtain ⟨b', ferr', hb', hloop⟩ :=
    main_loop_store_then_dump loopStart.pLnBuf false [] loopStart.stderr ⟨1, false, true, 0⟩
      ⟨1, true, false, 112⟩ elevenLines 41 hwf (by decide) (by simp) (by decide) (by decide)
      rfl rfl rfl (by decide) (by decide)
  obtain ⟨b2, hb2, -, -, -, hwin⟩ :=
    storeLines_fresh [] LINE_BUFFER_SIZE loopStart.pLnBuf (elevenLines.map lineOf)
      (by decide) hcreate
  rw [hb'] at hb2
  cases hb2
  have hret : retained b' = elevenLines.map lineOf := by
    unfold retained
    rw [hwin, reduceOption_fresh]
    rfl
  refine ⟨_, hloop, ?_, rfl⟩
  show loopStart.stderr ++ dump b' = _
  rw [dump, hret]
  rfl

/-! ## More claims at concrete inputs -/

/-- C11, amended, with the lines `"x\n"` and `"y\n"` held: the two lines go to
`stderr`, four bytes in all, and the loop goes on. -/
theorem C11_dump_command_witness :
    ∃ s1, main_iteration 3 ⟨1, true, false, 112⟩ holdsXY = .ok (Control.running, s1) ∧
      s1.stderr = [Output.fprintf [120, 10], Output.fprintf [121, 10]] ∧
      s1.pLnBuf = holdsXY.pLnBuf ∧
      ((retained holdsXY.pLnBuf).filterMap lineText).flatten = [120, 10, 121, 10] := by
  obtain ⟨s1, -, h2, h3, -, -, h6, -, -⟩ :=
    C11_dump_command holdsXY ⟨1, true, false, 112⟩ 3 (by decide) (by decide) (by decide)
      rfl rfl
  exact ⟨s1, h6 rfl, h2.trans (by decide), h3, by decide⟩

/-- C13, amended, on the buffer that holds `"x\n"` and `"y\n"`. -/
theorem C13_dump_up_to_first_nul_witness :
    ∃ r, printLines 3 holdsXY.pLnBuf = .ok r ∧ r.file = [[120, 10], [121, 10]] := by
  obtain ⟨r, h1, h2, -⟩ := C13_dump_up_to_first_nul holdsXY.pLnBuf 3 (by decide) (by decide)
    (by
      intro l hl
      have hl' : l ∈ [lineOf [120, 10], lineOf [121, 10]] := hl
      simp only [List.mem_cons, List.mem_singleton, List.not_mem_nil, or_false] at hl'
      rcases hl' with rfl | rfl
      · exact ⟨_, by decide, rfl⟩
      · exact ⟨_, by decide, rfl⟩)
  exact ⟨r, h1, h2.trans (by decide)⟩

/-- C15 with both inputs ready and the character `'x'`: the loop goes on. -/
theorem C15_transitions_out_of_running_witness :
    ∃ s', main_iteration 6 ⟨1, true, true, 120⟩ fiveLinesPending = .ok (Control.running, s') := by
  obtain ⟨c, s', h1, -, h3⟩ :=
    C15_transitions_out_of_running fiveLinesPending ⟨1, true, true, 120⟩ 6 (by decide)
      (by decide) (by decide)
  have hc : c = Control.running := h3 (by decide)
  subst hc
  exact ⟨s', h1⟩

/-- C16, amended, with both inputs ready and the character `'y'`. -/
theorem C16_order_amended_witness :
    ∃ s1 s2, main_iteration 3 ⟨1, true, true, 121⟩ oneLinePending =
        .ok (Control.running, s1) ∧
      drain_then_command 3 ⟨1, true, true, 121⟩ oneLinePending = .ok (Control.running, s2) ∧
      s1.pLnBuf = s2.pLnBuf ∧ s1.stderr = s2.stderr := by
  obtain ⟨s1, s2, h1, h2, h3, -, -, h6⟩ :=
    C16_order_amended oneLinePending ⟨1, true, true, 121⟩ 3 (by decide) (by decide)
      (by decide) (by decide) (by decide)
  exact ⟨s1, s2, h1, h2, h3, h6 (by decide)⟩

/-- C17 at capacity 3 after the five lines: the cursor is 2, on the line `"c\n"`. -/
theorem C17_cursor_at_oldest_or_empty_witness :
    ∃ b', storeLines emptyBuffer3 (fiveLines.map lineOf) = .ok b' ∧ b'.currLine = 2 ∧
      readSlot b'.list b'.currLine = .ok (some (lineOf (letterLine 99))) := by
  obtain ⟨b', h1, h2, -, h4⟩ :=
    C17_cursor_at_oldest_or_empty [] 3 emptyBuffer3 (fiveLines.map lineOf) (by decide)
      (by decide)
  obtain ⟨-, -, -, h5, -⟩ := h4 (by decide)
  exact ⟨b', h1, h2.trans (by decide), h5.trans rfl⟩

/-- C18 at capacity 3 with the cursor at 2: three passes, at the slots 2, 0, 1. -/
theorem C18_printLines_visits_each_slot_once_witness :
    ∃ tr, printLines_trace holdsXY.pLnBuf 3 holdsXY.pLnBuf.currLine = .ok tr ∧
      tr.map Prod.fst = [2, 0, 1] ∧ printLines 2 holdsXY.pLnBuf = .error .outOfFuel := by
  obtain ⟨h1, h2⟩ := C18_printLines_visits_each_slot_once holdsXY.pLnBuf (by decide)
  obtain ⟨tr, h3, -, -, h6, -⟩ := h1 3 (by decide)
  exact ⟨tr, h3, h6.trans (by decide), h2 2 (by decide)⟩

/-- C19 at capacity 3: two lines and then three lines, or all five at once. -/
theorem C19_split_across_notifications_witness :
    ∃ s2 s3,
      main_loop 6 [⟨(fiveLines.take 2).map GetlineResult.line, ⟨1, false, true, 0⟩⟩,
          ⟨(fiveLines.drop 2).map GetlineResult.line, ⟨2, false, true, 0⟩⟩]
          ⟨emptyBuffer3, ⟨[], false⟩, [], []⟩ = .ok (Control.running, s2) ∧
      main_loop 6 [⟨(fiveLines.take 2 ++ fiveLines.drop 2).map GetlineResult.line,
          ⟨1, false, true, 0⟩⟩] ⟨emptyBuffer3, ⟨[], false⟩, [], []⟩ =
        .ok (Control.running, s3) ∧
      s2.pLnBuf.list = s3.pLnBuf.list ∧ s2.pLnBuf.currLine = s3.pLnBuf.currLine := by
  obtain ⟨s2, s3, h1, h2, h3, h4, -⟩ :=
    C19_split_across_notifications ⟨emptyBuffer3, ⟨[], false⟩, [], []⟩ (fiveLines.take 2)
      (fiveLines.drop 2) ⟨1, false, true, 0⟩ ⟨2, false, true, 0⟩ ⟨1, false, true, 0⟩ 6
      (by decide) (by decide) (by decide) rfl (by simp) (by decide) (by decide) (by decide)
      (by decide)
  exact ⟨s2, s3, h1, h2, h3, h4⟩

/-- C20 on the buffer that `create_lineBuffer (3)` returns. -/
theorem C20_no_fault_in_reachable_states_witness :
    emptyBuffer3.nEntries ≠ 0 ∧
      ∀ ppLn, ∃ r, storeLine emptyBuffer3 ppLn = .ok r := by
  obtain ⟨h1, -, -, h4, -⟩ :=
    C20_no_fault_in_reachable_states 3 emptyBuffer3 (by decide)
      (Reachable.create [] emptyBuffer3 (by decide))
  exact ⟨h1, h4⟩

end DynamicLogFile
